import Mathlib

/-!
# kind-helper: the topology builder

A shallow embedding of `config.go`, `patches.go` and `builder.go` of kind-helper, and
the properties of `buildNodes` and `buildKindYAML` proved about it.

Conventions of the embedding.

* Go's `int` is a 64-bit two's-complement integer.  Values are carried as `Int`; the one
  arithmetic operation of the builder, the sum `cfg.ControlPlanes+cfg.Workers`, is reduced
  with `wrapInt`.
* A slice is a `List`; a nil slice and an empty slice are both `[]`.
* A function that may raise a run-time panic returns `Except RuntimePanic _`.  The one
  panic of the builder is that of `make([]Node, 0, n)`, raised by the check of the
  runtime's `makeslice`: `n` negative, or `n` descriptors of 104 bytes larger than
  `maxAlloc`.  Memory is otherwise unbounded: an allocation that passes the check succeeds.
* A Go result pair `(string, error)` is a `String × Option GoError`.
* `yaml.Marshal` belongs to an external library and is a parameter of `buildKindYAML`.
  The serializer of the specification, `yamlMarshal`, is one such encoder; it is used where
  a property is about the text of the manifest.
* `strings.Split` and `strconv.Atoi` of the standard library are `stringsSplit` and
  `strconvAtoi`; the work of the flag package is the argument of `parseFlags`.
-/

namespace KindHelper

/-! ## Go runtime -/

/-- Two's-complement wrap-around of an integer into the range of Go's 64-bit `int`. -/
def wrapInt (z : Int) : Int := (z + 2 ^ 63) % 2 ^ 64 - 2 ^ 63

/-- Run-time panics the builder can raise. -/
inductive RuntimePanic where
  /-- Raised by `make([]T, 0, n)` for an `n` that is negative or too large ("makeslice: cap
  out of range"). -/
  | makesliceCapOutOfRange
  deriving DecidableEq, Repr

/-- The constant `maxAlloc` of the runtime, the largest allocation in bytes, on the 64-bit
platforms with 48 bits of heap address (linux/amd64): `1 << 48`. -/
def maxAlloc : Int := 2 ^ 48

/-- The size in bytes of a value of type `Node` on a 64-bit platform: two strings of 16
bytes and three slices of 24 bytes. -/
def nodeSize : Int := 104

/-- The check of the runtime's `makeslice` for `make([]T, 0, n)` with elements of `elemSize`
bytes (`mem, overflow := MulUintptr(size, cap)`, then `overflow || mem > maxAlloc ||
len < 0 || len > cap` panics): it passes exactly when `n` is not negative and
`elemSize * n` bytes do not exceed `maxAlloc`. -/
def makesliceOK (elemSize n : Int) : Prop := 0 ≤ n ∧ elemSize * n ≤ maxAlloc

instance (elemSize n : Int) : Decidable (makesliceOK elemSize n) := by
  unfold makesliceOK; infer_instance

/-- The statement `make([]T, 0, n)` for elements of `elemSize` bytes: an empty slice, or
the run-time panic "makeslice: cap out of range" when `n` fails the check of `makeslice`.
Once the check has passed the allocation is taken to succeed: the exhaustion of the
memory of the machine is not part of the embedding. -/
def makeSlice {α : Type} (elemSize n : Int) : Except RuntimePanic (List α) :=
  if makesliceOK elemSize n then .ok [] else .error .makesliceCapOutOfRange

/-- Go error values as `fmt.Errorf` builds them. -/
inductive GoError where
  /-- An error made by `fmt.Errorf` from a format without `%w`. -/
  | errorString (msg : String)
  /-- An error made by `fmt.Errorf` with `%w`: the formatted text and the wrapped error. -/
  | wrapError (msg : String) (err : GoError)
  deriving DecidableEq, Repr

/-- The method `Error()` of an error value. -/
def GoError.Error : GoError → String
  | .errorString msg => msg
  | .wrapError msg _ => msg

/-- The predicate `strings.Contains(s, substr)`. -/
def stringsContains (s substr : String) : Prop := substr.data <:+: s.data

instance (s substr : String) : Decidable (stringsContains s substr) := by
  unfold stringsContains; infer_instance

/-! ## config.go -/

/-- PortMapping represents a single port mapping. -/
structure PortMapping where
  HostPort : Int := 0
  ContainerPort : Int := 0
  deriving DecidableEq, Repr

/-- MountMapping represents a single mount mapping. -/
structure MountMapping where
  HostPath : String := ""
  ContainerPath : String := ""
  deriving DecidableEq, Repr

/-- Config holds all configuration from command line flags. -/
structure Config where
  Name : String := ""
  K8sVersion : String := ""
  APIVersion : String := ""
  ControlPlanes : Int := 0
  Workers : Int := 0
  WithIngress : Bool := false
  WithLocalRegistry : Bool := false
  Ports : List PortMapping := []
  Mounts : List MountMapping := []
  deriving DecidableEq, Repr

/-! ## builder.go: the output types -/

/-- ExtraPortMapping represents port mapping configuration. -/
structure ExtraPortMapping where
  ContainerPort : Int := 0
  HostPort : Int := 0
  Protocol : String := ""
  deriving DecidableEq, Repr

/-- ExtraMount represents mount configuration. -/
structure ExtraMount where
  HostPath : String := ""
  ContainerPath : String := ""
  deriving DecidableEq, Repr

/-- Node represents a kind node configuration. -/
structure Node where
  Role : String := ""
  Image : String := ""
  ExtraPortMappings : List ExtraPortMapping := []
  ExtraMounts : List ExtraMount := []
  KubeadmConfigPatches : List String := []
  deriving DecidableEq, Repr

/-- ClusterConfig represents kind Cluster configuration. -/
structure ClusterConfig where
  Kind : String := ""
  APIVersion : String := ""
  Name : String := ""
  Nodes : List Node := []
  ContainerdConfigPatches : List String := []
  deriving DecidableEq, Repr

/-! ## patches.go -/

/-- The constant ingressReadyPatch adds a label to the node for ingress controller scheduling. -/
def ingressReadyPatch : String :=
  "kind: InitConfiguration\nnodeRegistration:\n  kubeletExtraArgs:\n    node-labels: \"ingress-ready=true\""

/-- The constant localRegistryPatch configures containerd to use local registry. -/
def localRegistryPatch : String :=
  "[plugins.\"io.containerd.grpc.v1.cri\".registry.mirrors.\"localhost:5001\"]\n  endpoint = [\"http://kind-registry:5000\"]"

/-- The function configureIngressNode applies ingress-specific configuration to a node. -/
def configureIngressNode (node : Node) : Node :=
  -- Add port mappings for HTTP and HTTPS
  let node := { node with
    ExtraPortMappings := node.ExtraPortMappings ++
      [ExtraPortMapping.mk 80 80 "TCP", ExtraPortMapping.mk 443 443 "TCP"] }
  -- Add kubeadm patch for node label
  { node with KubeadmConfigPatches := node.KubeadmConfigPatches ++ [ingressReadyPatch] }

/-! ## builder.go: the builder -/

/-- The function convertPortMappings converts config port mappings to node format. -/
def convertPortMappings (ports : List PortMapping) : List ExtraPortMapping :=
  ports.foldl
    (fun mappings pm =>
      mappings ++ [ExtraPortMapping.mk pm.ContainerPort pm.HostPort "TCP"])
    []

/-- The function convertMountMappings converts config mount mappings to node format. -/
def convertMountMappings (mounts : List MountMapping) : List ExtraMount :=
  mounts.foldl
    (fun extraMounts mm =>
      extraMounts ++ [ExtraMount.mk mm.HostPath mm.ContainerPath])
    []

/-- The function createControlPlaneNode creates a single control plane node. -/
def createControlPlaneNode (cfg : Config) (index : Int) : Node :=
  let node : Node := { Role := "control-plane" }
  -- Set Kubernetes version if specified
  let node := if cfg.K8sVersion ≠ "" then
      { node with Image := "kindest/node:" ++ cfg.K8sVersion }
    else node
  -- Apply special configuration to first control plane only
  let node := if index = 0 then
      let node := if cfg.WithIngress then configureIngressNode node else node
      { node with ExtraPortMappings := node.ExtraPortMappings ++ convertPortMappings cfg.Ports }
    else node
  -- Apply mounts to all control plane nodes
  { node with ExtraMounts := convertMountMappings cfg.Mounts }

/-- The function createWorkerNode creates a single worker node. -/
def createWorkerNode (cfg : Config) : Node :=
  let node : Node := { Role := "worker" }
  let node := if cfg.K8sVersion ≠ "" then
      { node with Image := "kindest/node:" ++ cfg.K8sVersion }
    else node
  { node with ExtraMounts := convertMountMappings cfg.Mounts }

/-- The capacity expression `cfg.ControlPlanes+cfg.Workers` of buildNodes, a Go `int`. -/
def nodesCap (cfg : Config) : Int := wrapInt (cfg.ControlPlanes + cfg.Workers)

/-- The function buildNodes creates node configurations based on config.  The loop
`for i := 0; i < n; i++` runs for `i = 0, …, n-1` and not at all when `n ≤ 0`. -/
def buildNodes (cfg : Config) : Except RuntimePanic (List Node) := do
  let nodes ← makeSlice nodeSize (nodesCap cfg)
  -- Create control plane nodes
  let nodes := (List.range cfg.ControlPlanes.toNat).foldl
    (fun nodes (i : Nat) => nodes ++ [createControlPlaneNode cfg (Int.ofNat i)]) nodes
  -- Create worker nodes
  let nodes := (List.range cfg.Workers.toNat).foldl
    (fun nodes _ => nodes ++ [createWorkerNode cfg]) nodes
  return nodes

/-- The error buildKindYAML returns for a configuration without control plane. -/
def validationError : GoError :=
  .errorString "at least one control plane node is required"

/-- The cluster document buildKindYAML constructs and hands to `yaml.Marshal`
(the statements between the validation and the call of `yaml.Marshal`). -/
def buildCluster (cfg : Config) : Except RuntimePanic ClusterConfig := do
  let nodes ← buildNodes cfg
  let cluster : ClusterConfig :=
    { Kind := "Cluster", APIVersion := cfg.APIVersion, Name := cfg.Name, Nodes := nodes }
  -- Add local registry configuration if requested
  let cluster := if cfg.WithLocalRegistry then
      { cluster with ContainerdConfigPatches := [localRegistryPatch] }
    else cluster
  return cluster

/-- What buildKindYAML returns once `yaml.Marshal` has answered `data, err`: the wrapped
error and no text when `err != nil`, else `string(data)` and no error. -/
def marshalReturn : Except GoError String → String × Option GoError
  | .error err => ("", some (.wrapError ("failed to marshal yaml: " ++ err.Error) err))
  | .ok data => (data, none)

/-- The function buildKindYAML generates kind cluster YAML from config.  The parameter
`marshal` is `yaml.Marshal` at the type `*ClusterConfig`. -/
def buildKindYAML (marshal : ClusterConfig → Except GoError String) (cfg : Config) :
    Except RuntimePanic (String × Option GoError) :=
  if cfg.ControlPlanes < 1 then
    .ok ("", some validationError)
  else do
    let cluster ← buildCluster cfg
    -- Marshal to YAML
    return marshalReturn (marshal cluster)

/-! ## Go standard library: `strings.Split` and `strconv.Atoi` -/

/-- The pieces of a text between the occurrences of the separator `sep`: a text with `n`
occurrences has `n + 1` pieces, the empty text has the one piece `[]`. -/
def splitChars (sep : Char) : List Char → List (List Char)
  | [] => [[]]
  | c :: cs =>
    let rest := splitChars sep cs
    if c = sep then [] :: rest else (c :: rest.headD []) :: rest.tail

/-- The call `strings.Split(s, sep)` for a separator of one character. -/
def stringsSplit (s : String) (sep : Char) : List String :=
  (splitChars sep s.data).map String.mk

/-- The value of a text of decimal digits `0`..`9`, read after the digits of value `acc`;
`none` when a character is no digit. -/
def parseDigits (acc : Nat) : List Char → Option Nat
  | [] => some acc
  | c :: cs =>
    if 48 ≤ c.toNat ∧ c.toNat ≤ 57 then parseDigits (acc * 10 + (c.toNat - 48)) cs else none

/-- The unsigned part of `strconv.Atoi`: at least one character, all of them digits. -/
def parseUnsigned : List Char → Option Nat
  | [] => none
  | cs => parseDigits 0 cs

/-- The call `strconv.Atoi(s)`: an optional sign `+` or `-`, then at least one decimal
digit and nothing else, the value being a value of `int`; `none` stands for a non-nil
error (`ErrSyntax` or `ErrRange`). -/
def strconvAtoi (s : String) : Option Int :=
  let signed : Bool × List Char :=
    match s.data with
    | '-' :: rest => (true, rest)
    | '+' :: rest => (false, rest)
    | rest => (false, rest)
  match parseUnsigned signed.2 with
  | none => none
  | some n =>
    let value : Int := if signed.1 then -(n : Int) else (n : Int)
    if -2 ^ 63 ≤ value ∧ value < 2 ^ 63 then some value else none

/-! ## config.go: the flag values and parseFlags -/

/-- PortMappings implements flag.Value for multiple port mappings. -/
abbrev PortMappings := List PortMapping

/-- MountMappings implements flag.Value for multiple mount mappings. -/
abbrev MountMappings := List MountMapping

/-- The method `(p *PortMappings) Set(value string) error`: the list `*p` after the call
and the error returned. -/
def PortMappings.Set (p : PortMappings) (value : String) : PortMappings × Option GoError :=
  match stringsSplit value ':' with
  | [hostPart, containerPart] =>
    match strconvAtoi hostPart with
    | none => (p, some (.errorString ("invalid host port: " ++ hostPart)))
    | some hostPort =>
      match strconvAtoi containerPart with
      | none => (p, some (.errorString ("invalid container port: " ++ containerPart)))
      | some containerPort =>
        (p ++ [{ HostPort := hostPort, ContainerPort := containerPort }], none)
  | _ =>
    (p, some (.errorString
      ("invalid port mapping format: " ++ value ++ " (expected host:container)")))

/-- The method `(m *MountMappings) Set(value string) error`: the list `*m` after the call
and the error returned. -/
def MountMappings.Set (m : MountMappings) (value : String) : MountMappings × Option GoError :=
  match stringsSplit value ':' with
  | [hostPath, containerPath] =>
    if hostPath = "" ∨ containerPath = "" then
      (m, some (.errorString "mount paths cannot be empty"))
    else
      (m ++ [{ HostPath := hostPath, ContainerPath := containerPath }], none)
  | _ =>
    (m, some (.errorString
      ("invalid mount mapping format: " ++ value ++ " (expected host:container)")))

/-- The function parseFlags from the return of `flag.Parse()` on: `parsed` is the value of
`*cfg` as the flag package has filled it, the result is the configuration returned. -/
def parseFlags (parsed : Config) : Config :=
  let cfg := parsed
  -- Basic validation
  let cfg := if cfg.ControlPlanes < 1 then { cfg with ControlPlanes := 1 } else cfg
  let cfg := if cfg.Workers < 0 then { cfg with Workers := 0 } else cfg
  cfg

/-! ## The serializer

`yaml.Marshal` is the encoder of gopkg.in/yaml.v3, which is not among the sources.  What
follows is the serializer of the specification (4.4 Serializer, 6 External interfaces) at
the type `*ClusterConfig`: the keys and their order are the `yaml:"…"` tags of the fields
of builder.go, and a field tagged `omitempty` is left out when it is empty. -/

/-- Modelled from the spec: a scalar of the manifest, a string or an integer (the
serializer `yaml.Marshal` of gopkg.in/yaml.v3 is missing from the sources). -/
inductive YamlScalar where
  | str (s : String)
  | int (n : Int)
  deriving DecidableEq, Repr

/-- Modelled from the spec: the value under a key of a node of the manifest, a scalar, a
sequence of strings or a sequence of mappings of scalars (the serializer `yaml.Marshal` is
missing from the sources). -/
inductive YamlNodeValue where
  | scalar (v : YamlScalar)
  | strings (items : List String)
  | mappings (items : List (List (String × YamlScalar)))
  deriving DecidableEq, Repr

/-- Modelled from the spec: the value under a top-level key of the manifest, a scalar, a
sequence of strings or the sequence of the node mappings (the serializer `yaml.Marshal` is
missing from the sources). -/
inductive YamlDocValue where
  | scalar (v : YamlScalar)
  | strings (items : List String)
  | nodes (items : List (List (String × YamlNodeValue)))
  deriving DecidableEq, Repr

/-- Modelled from the spec: the mapping written for an ExtraPortMapping, from the tags
`containerPort`, `hostPort` and `protocol,omitempty` (the serializer `yaml.Marshal` is
missing from the sources). -/
def encodeExtraPortMapping (pm : ExtraPortMapping) : List (String × YamlScalar) :=
  [("containerPort", .int pm.ContainerPort), ("hostPort", .int pm.HostPort)] ++
  (if pm.Protocol = "" then [] else [("protocol", .str pm.Protocol)])

/-- Modelled from the spec: the mapping written for an ExtraMount, from the tags `hostPath`
and `containerPath` (the serializer `yaml.Marshal` is missing from the sources). -/
def encodeExtraMount (em : ExtraMount) : List (String × YamlScalar) :=
  [("hostPath", .str em.HostPath), ("containerPath", .str em.ContainerPath)]

/-- Modelled from the spec: the mapping written for a Node, from the tags `role`,
`image,omitempty`, `extraPortMappings,omitempty`, `extraMounts,omitempty` and
`kubeadmConfigPatches,omitempty` (the serializer `yaml.Marshal` is missing from the
sources). -/
def encodeNode (node : Node) : List (String × YamlNodeValue) :=
  [("role", .scalar (.str node.Role))] ++
  (if node.Image = "" then [] else [("image", .scalar (.str node.Image))]) ++
  (if node.ExtraPortMappings = [] then []
    else [("extraPortMappings", .mappings (node.ExtraPortMappings.map encodeExtraPortMapping))]) ++
  (if node.ExtraMounts = [] then []
    else [("extraMounts", .mappings (node.ExtraMounts.map encodeExtraMount))]) ++
  (if node.KubeadmConfigPatches = [] then []
    else [("kubeadmConfigPatches", .strings node.KubeadmConfigPatches)])

/-- Modelled from the spec: the top-level mapping written for a ClusterConfig, from the tags
`kind`, `apiVersion`, `name,omitempty`, `nodes` and `containerdConfigPatches,omitempty`
(the serializer `yaml.Marshal` is missing from the sources). -/
def encodeClusterConfig (cluster : ClusterConfig) : List (String × YamlDocValue) :=
  [("kind", .scalar (.str cluster.Kind)), ("apiVersion", .scalar (.str cluster.APIVersion))] ++
  (if cluster.Name = "" then [] else [("name", .scalar (.str cluster.Name))]) ++
  [("nodes", .nodes (cluster.Nodes.map encodeNode))] ++
  (if cluster.ContainerdConfigPatches = [] then []
    else [("containerdConfigPatches", .strings cluster.ContainerdConfigPatches)])

/-- Modelled from the spec: the lines of a string written after `head` (a key with its
colon, or the dash of a sequence item): a string of several lines is passed through
verbatim, line by line, as a block under `head`; a string of one line follows `head` (the
serializer `yaml.Marshal` is missing from the sources). -/
def stringLines (head : String) (s : String) : List String :=
  if '\n' ∈ s.data then (head ++ " |-") :: (stringsSplit s '\n').map (fun line => "  " ++ line)
  else [head ++ " " ++ (if s = "" then "\"\"" else s)]

/-- Modelled from the spec: the lines of a scalar written after `head` (the serializer
`yaml.Marshal` is missing from the sources). -/
def scalarLines (head : String) : YamlScalar → List String
  | .str s => stringLines head s
  | .int n => [head ++ " " ++ toString n]

/-- Modelled from the spec: the lines of a value written as an item of a sequence: a dash
before the first line, the other lines aligned with it (the serializer `yaml.Marshal` is
missing from the sources). -/
def sequenceItem : List String → List String
  | [] => ["- {}"]
  | line :: lines => ("- " ++ line) :: lines.map (fun l => "  " ++ l)

/-- Modelled from the spec: the lines of a key of a node mapping with its value (the
serializer `yaml.Marshal` is missing from the sources). -/
def nodeFieldLines (field : String × YamlNodeValue) : List String :=
  match field.2 with
  | .scalar v => scalarLines (field.1 ++ ":") v
  | .strings items =>
    (field.1 ++ ":") :: (items.flatMap (stringLines "-")).map (fun l => "  " ++ l)
  | .mappings items =>
    (field.1 ++ ":") ::
      (items.flatMap (fun m =>
        sequenceItem (m.flatMap (fun kv => scalarLines (kv.1 ++ ":") kv.2)))).map
        (fun l => "  " ++ l)

/-- Modelled from the spec: the lines of a top-level key of the manifest with its value
(the serializer `yaml.Marshal` is missing from the sources). -/
def docFieldLines (field : String × YamlDocValue) : List String :=
  match field.2 with
  | .scalar v => scalarLines (field.1 ++ ":") v
  | .strings items =>
    (field.1 ++ ":") :: (items.flatMap (stringLines "-")).map (fun l => "    " ++ l)
  | .nodes items =>
    if items = [] then [field.1 ++ ": []"]
    else (field.1 ++ ":") ::
      (items.flatMap (fun n => sequenceItem (n.flatMap nodeFieldLines))).map
        (fun l => "    " ++ l)

/-- Modelled from the spec: the lines of the manifest of a cluster document (the serializer
`yaml.Marshal` is missing from the sources). -/
def manifestLines (cluster : ClusterConfig) : List String :=
  (encodeClusterConfig cluster).flatMap docFieldLines

/-- Modelled from the spec: a text made of the given lines, each ended by a line feed (the
serializer `yaml.Marshal` is missing from the sources). -/
def unlines (lines : List String) : String :=
  String.mk (lines.flatMap (fun l => l.data ++ ['\n']))

/-- Modelled from the spec: the call `yaml.Marshal(cluster)`, the serializer of the
specification, which renders the cluster document to the text of the manifest and does not
fail on it (the serializer `yaml.Marshal` of gopkg.in/yaml.v3 is missing from the
sources). -/
def yamlMarshal (cluster : ClusterConfig) : Except GoError String :=
  .ok (unlines (manifestLines cluster))

/-- Modelled from the spec: the lines of one node in the manifest, an item of the sequence
under the key `nodes` (the serializer `yaml.Marshal` is missing from the sources). -/
def nodeManifestLines (node : Node) : List String :=
  (sequenceItem ((encodeNode node).flatMap nodeFieldLines)).map (fun l => "    " ++ l)

/-- Modelled from the spec: whether a line of the manifest is the line of the key `key`
written at the indentation `indent`: the line starts with the indentation, the key and a
colon (the serializer `yaml.Marshal` is missing from the sources). -/
def lineHasKey (indent key line : String) : Prop :=
  (indent ++ key ++ ":").data <+: line.data

instance (indent key line : String) : Decidable (lineHasKey indent key line) := by
  unfold lineHasKey; infer_instance

/-! ## Configurations of builder_test.go and other concrete inputs -/

/-- The configuration of TestBuildNodes_WithWorkers. -/
def cfgWithWorkers : Config := { ControlPlanes := 1, Workers := 2 }

/-- A configuration whose two counts are each `2 ^ 62`: both are values of Go's `int`,
their sum is not. -/
def cfgCapOverflow : Config :=
  { ControlPlanes := 4611686018427387904, Workers := 4611686018427387904 }

/-- The configuration of TestBuildNodes_IngressAndCustomPortsCombined. -/
def cfgIngressAndCustomPorts : Config :=
  { ControlPlanes := 1, WithIngress := true,
    Ports := [{ HostPort := 5432, ContainerPort := 5432 }] }

/-- The configuration of TestBuildNodes_IngressOnFirstControlPlaneOnly. -/
def cfgIngressTwoControlPlanes : Config :=
  { ControlPlanes := 2, Workers := 1, WithIngress := true }

/-- The configuration of TestBuildNodes_IngressOnFirstControlPlaneOnly with one custom
port, `5432:5432`, added. -/
def cfgIngressTwoControlPlanesPort : Config :=
  { ControlPlanes := 2, Workers := 1, WithIngress := true,
    Ports := [{ HostPort := 5432, ContainerPort := 5432 }] }

/-- The configuration of TestBuildNodes_CustomPortsOnFirstControlPlaneOnly. -/
def cfgCustomPorts : Config :=
  { ControlPlanes := 1, Workers := 1,
    Ports := [{ HostPort := 8080, ContainerPort := 80 },
              { HostPort := 5432, ContainerPort := 5432 }] }

/-- The configuration of TestBuildNodes_KubernetesVersion. -/
def cfgKubernetesVersion : Config := { K8sVersion := "v1.30.0", ControlPlanes := 1, Workers := 1 }

/-- The configuration of TestBuildNodes_MountsAppliedToAllNodes. -/
def cfgMounts : Config :=
  { ControlPlanes := 1, Workers := 2,
    Mounts := [{ HostPath := "/src", ContainerPath := "/app" },
               { HostPath := "/data", ContainerPath := "/data" }] }

/-- The configuration of TestBuildKindYAML_LocalRegistry. -/
def cfgLocalRegistry : Config :=
  { APIVersion := "kind.x-k8s.io/v1alpha4", ControlPlanes := 1, WithLocalRegistry := true }

/-- The configuration of TestBuildNodes_MinimalCluster. -/
def cfgMinimal : Config := { ControlPlanes := 1, Workers := 0 }

/-- A configuration built directly, not by parseFlags: one control plane, workers = -2. -/
def cfgNegativeWorkers : Config := { ControlPlanes := 1, Workers := -2 }

/-- A configuration built directly, not by parseFlags: three control planes, workers = -2,
so that the capacity 3 + (-2) is not negative. -/
def cfgNegativeWorkersInCap : Config := { ControlPlanes := 3, Workers := -2 }

/-- A configuration built directly, not by parseFlags: `2 ^ 62` control planes, a value of
Go's `int`, and workers = -1. -/
def cfgHugeControlPlanes : Config := { ControlPlanes := 4611686018427387904, Workers := -1 }

/-- What `flag.Parse()` leaves for `-control-plane 0 -worker -3`, the other flags absent. -/
def parsedZeroControlPlanes : Config :=
  { Name := "kind", APIVersion := "kind.x-k8s.io/v1alpha4", ControlPlanes := 0, Workers := -3 }

/-- The configuration with one control plane and the ports the flag `-port -1:70000`
accumulates. -/
def cfgUncheckedPorts : Config :=
  { ControlPlanes := 1, Ports := (PortMappings.Set [] "-1:70000").1 }

/-- The configuration of TestBuildKindYAML_LocalRegistry with workers = -2, built directly
and not by parseFlags. -/
def cfgLocalRegistryNegativeWorkers : Config :=
  { APIVersion := "kind.x-k8s.io/v1alpha4", ControlPlanes := 1, Workers := -2,
    WithLocalRegistry := true }

/-! ## Auxiliary lemmas -/

theorem foldl_append_singleton {α β : Type} (f : β → α) (l : List β) (acc : List α) :
    l.foldl (fun acc b => acc ++ [f b]) acc = acc ++ l.map f := by
  induction l generalizing acc with
  | nil => simp
  | cons b l ih => simp [ih]

theorem wrapInt_of_inRange (z : Int) (hlo : -2 ^ 63 ≤ z) (hhi : z < 2 ^ 63) : wrapInt z = z := by
  unfold wrapInt
  rw [Int.emod_eq_of_lt (by omega) (by omega)]
  omega

theorem convertPortMappings_eq_map (ports : List PortMapping) :
    convertPortMappings ports =
      ports.map (fun pm => ExtraPortMapping.mk pm.ContainerPort pm.HostPort "TCP") := by
  simp [convertPortMappings, foldl_append_singleton]

theorem convertMountMappings_eq_map (mounts : List MountMapping) :
    convertMountMappings mounts =
      mounts.map (fun mm => ExtraMount.mk mm.HostPath mm.ContainerPath) := by
  simp [convertMountMappings, foldl_append_singleton]

/-- The two loops of buildNodes in closed form. -/
theorem buildNodes_eq (cfg : Config) :
    buildNodes cfg =
      if makesliceOK nodeSize (nodesCap cfg) then
        .ok ((List.range cfg.ControlPlanes.toNat).map
                (fun (i : Nat) => createControlPlaneNode cfg (Int.ofNat i)) ++
              (List.range cfg.Workers.toNat).map (fun _ => createWorkerNode cfg))
      else .error .makesliceCapOutOfRange := by
  unfold buildNodes makeSlice
  split <;> simp [bind, Except.bind, pure, Except.pure, foldl_append_singleton]

theorem buildNodes_ok_iff (cfg : Config) :
    (∃ nodes, buildNodes cfg = .ok nodes) ↔ makesliceOK nodeSize (nodesCap cfg) := by
  rw [buildNodes_eq]
  split <;> simp [*]

theorem buildNodes_error_iff (cfg : Config) :
    buildNodes cfg = .error .makesliceCapOutOfRange ↔ ¬ makesliceOK nodeSize (nodesCap cfg) := by
  rw [buildNodes_eq]
  split <;> simp [*]

/-- A sum of counts that fits the limit of the allocator is its own capacity, unwrapped. -/
theorem nodesCap_of_fit (cfg : Config) (hlo : 0 ≤ cfg.ControlPlanes + cfg.Workers)
    (hfit : nodeSize * (cfg.ControlPlanes + cfg.Workers) ≤ maxAlloc) :
    nodesCap cfg = cfg.ControlPlanes + cfg.Workers := by
  have hfit' : 104 * (cfg.ControlPlanes + cfg.Workers) ≤ 2 ^ 48 := hfit
  unfold nodesCap
  exact wrapInt_of_inRange _ (by omega) (by omega)

theorem buildNodes_ok_of_inRange (cfg : Config) (hcp : 1 ≤ cfg.ControlPlanes)
    (hw : 0 ≤ cfg.Workers)
    (hfit : nodeSize * (cfg.ControlPlanes + cfg.Workers) ≤ maxAlloc) :
    ∃ nodes, buildNodes cfg = .ok nodes := by
  refine (buildNodes_ok_iff cfg).mpr ?_
  rw [nodesCap_of_fit cfg (by omega) hfit]
  exact ⟨by omega, hfit⟩

theorem buildNodes_length (cfg : Config) (nodes : List Node) (h : buildNodes cfg = .ok nodes) :
    nodes.length = cfg.ControlPlanes.toNat + cfg.Workers.toNat := by
  rw [buildNodes_eq] at h
  split at h
  · cases h; simp
  · cases h

/-- Every descriptor of the list is a control plane made at its own index, or a worker. -/
theorem buildNodes_getElem? (cfg : Config) (nodes : List Node) (h : buildNodes cfg = .ok nodes)
    (i : Nat) (node : Node) (hi : nodes[i]? = some node) :
    (i < cfg.ControlPlanes.toNat ∧ node = createControlPlaneNode cfg (Int.ofNat i)) ∨
    (cfg.ControlPlanes.toNat ≤ i ∧ node = createWorkerNode cfg) := by
  rw [buildNodes_eq] at h
  split at h
  swap
  · cases h
  · cases h
    by_cases hlt : i < cfg.ControlPlanes.toNat
    · left
      rw [List.getElem?_append_left (by simpa using hlt)] at hi
      simp [List.getElem?_map, List.getElem?_range hlt] at hi
      exact ⟨hlt, hi.symm⟩
    · right
      have hge : cfg.ControlPlanes.toNat ≤ i := Nat.le_of_not_lt hlt
      rw [List.getElem?_append_right (by simpa using hge), List.getElem?_map] at hi
      cases hr : (List.range cfg.Workers.toNat)[i - ((List.range cfg.ControlPlanes.toNat).map
          (fun (i : Nat) => createControlPlaneNode cfg (Int.ofNat i))).length]? with
      | none => rw [hr] at hi; cases hi
      | some j =>
        simp only [hr, Option.map_some', Option.some.injEq] at hi
        exact ⟨hge, hi.symm⟩

theorem buildNodes_getElem?_zero (cfg : Config) (hcp : 1 ≤ cfg.ControlPlanes) (nodes : List Node)
    (h : buildNodes cfg = .ok nodes) : nodes[0]? = some (createControlPlaneNode cfg 0) := by
  rw [buildNodes_eq] at h
  split at h
  swap
  · cases h
  · cases h
    have hpos : 0 < cfg.ControlPlanes.toNat := by omega
    rw [List.getElem?_append_left (by simpa using hpos)]
    simp [List.getElem?_map, List.getElem?_range hpos]

/-! ### The fields of a descriptor -/

theorem createControlPlaneNode_Role (cfg : Config) (index : Int) :
    (createControlPlaneNode cfg index).Role = "control-plane" := by
  unfold createControlPlaneNode configureIngressNode
  split_ifs <;> rfl

theorem createWorkerNode_Role (cfg : Config) : (createWorkerNode cfg).Role = "worker" := by
  unfold createWorkerNode
  split_ifs <;> rfl

theorem createControlPlaneNode_Image (cfg : Config) (index : Int) :
    (createControlPlaneNode cfg index).Image =
      if cfg.K8sVersion ≠ "" then "kindest/node:" ++ cfg.K8sVersion else "" := by
  unfold createControlPlaneNode configureIngressNode
  split_ifs <;> rfl

theorem createWorkerNode_Image (cfg : Config) :
    (createWorkerNode cfg).Image =
      if cfg.K8sVersion ≠ "" then "kindest/node:" ++ cfg.K8sVersion else "" := by
  unfold createWorkerNode
  split_ifs <;> rfl

theorem createControlPlaneNode_ExtraPortMappings (cfg : Config) (index : Int) :
    (createControlPlaneNode cfg index).ExtraPortMappings =
      if index = 0 then
        (if cfg.WithIngress then
            [ExtraPortMapping.mk 80 80 "TCP", ExtraPortMapping.mk 443 443 "TCP"]
          else []) ++
          cfg.Ports.map (fun pm => ExtraPortMapping.mk pm.ContainerPort pm.HostPort "TCP")
      else [] := by
  unfold createControlPlaneNode configureIngressNode
  split_ifs <;> simp [convertPortMappings_eq_map]

theorem createWorkerNode_ExtraPortMappings (cfg : Config) :
    (createWorkerNode cfg).ExtraPortMappings = [] := by
  unfold createWorkerNode
  split_ifs <;> rfl

theorem createControlPlaneNode_KubeadmConfigPatches (cfg : Config) (index : Int) :
    (createControlPlaneNode cfg index).KubeadmConfigPatches =
      if index = 0 ∧ cfg.WithIngress = true then [ingressReadyPatch] else [] := by
  unfold createControlPlaneNode configureIngressNode
  split_ifs <;> simp_all

theorem createWorkerNode_KubeadmConfigPatches (cfg : Config) :
    (createWorkerNode cfg).KubeadmConfigPatches = [] := by
  unfold createWorkerNode
  split_ifs <;> rfl

theorem createControlPlaneNode_ExtraMounts (cfg : Config) (index : Int) :
    (createControlPlaneNode cfg index).ExtraMounts =
      cfg.Mounts.map (fun mm => ExtraMount.mk mm.HostPath mm.ContainerPath) := by
  unfold createControlPlaneNode configureIngressNode
  split_ifs <;> simp [convertMountMappings_eq_map]

theorem createWorkerNode_ExtraMounts (cfg : Config) :
    (createWorkerNode cfg).ExtraMounts =
      cfg.Mounts.map (fun mm => ExtraMount.mk mm.HostPath mm.ContainerPath) := by
  unfold createWorkerNode
  split_ifs <;> simp [convertMountMappings_eq_map]

/-- The text of a wrapped marshalling error is never the text of the validation error. -/
theorem marshal_message_ne_validation (text : String) :
    "failed to marshal yaml: " ++ text ≠ validationError.Error := by
  intro h
  have hd := congrArg (fun s : String => s.data.head?) h
  simp [validationError, GoError.Error, String.data_append] at hd

/-! ### The document handed to the encoder -/

theorem buildKindYAML_of_buildNodes_ok (marshal : ClusterConfig → Except GoError String)
    (cfg : Config) (hcp : 1 ≤ cfg.ControlPlanes) (nodes : List Node)
    (h : buildNodes cfg = .ok nodes) :
    buildKindYAML marshal cfg =
      .ok (marshalReturn (marshal
        { Kind := "Cluster", APIVersion := cfg.APIVersion, Name := cfg.Name, Nodes := nodes,
          ContainerdConfigPatches :=
            if cfg.WithLocalRegistry then [localRegistryPatch] else [] })) := by
  have hnot : ¬ cfg.ControlPlanes < 1 := by omega
  simp only [buildKindYAML, hnot, if_false, buildCluster, h, bind, Except.bind, pure, Except.pure]
  cases cfg.WithLocalRegistry <;> rfl

theorem buildKindYAML_of_buildNodes_error (marshal : ClusterConfig → Except GoError String)
    (cfg : Config) (hcp : 1 ≤ cfg.ControlPlanes) (p : RuntimePanic)
    (h : buildNodes cfg = .error p) : buildKindYAML marshal cfg = .error p := by
  have hnot : ¬ cfg.ControlPlanes < 1 := by omega
  simp only [buildKindYAML, hnot, if_false, buildCluster, h, bind, Except.bind]

/-- Two documents the encoder cannot tell apart on any run of buildKindYAML are equal: the
document handed to the encoder is determined by the results of buildKindYAML. -/
theorem marshalReturn_separates (c c' : ClusterConfig)
    (h : ∀ marshal : ClusterConfig → Except GoError String,
      marshalReturn (marshal c') = marshalReturn (marshal c)) : c' = c := by
  by_contra hne
  have hsep := h (fun x => if x = c then .ok "1" else .ok "0")
  simp [hne, marshalReturn] at hsep

/-! ## C1: number and roles of the descriptors -/

/-- C1 (as amended): for every configuration with controlPlanes ≥ 1 and workers ≥ 0 for
which the allocation `make([]Node, 0, controlPlanes+workers)` of the node list does not
panic (the capacity, as a Go `int`, is not negative and its 104-byte descriptors do not
exceed `maxAlloc`), buildNodes returns a list of exactly controlPlanes + workers
descriptors; there is a descriptor at every index below controlPlanes and its role is
"control-plane", and there is a descriptor at every index from controlPlanes up to
controlPlanes + workers and its role is "worker". -/
theorem buildNodes_count_and_roles (cfg : Config) (hcp : 1 ≤ cfg.ControlPlanes)
    (hw : 0 ≤ cfg.Workers) (hmake : makesliceOK nodeSize (nodesCap cfg)) :
    ∃ nodes, buildNodes cfg = .ok nodes ∧
      (nodes.length : Int) = cfg.ControlPlanes + cfg.Workers ∧
      (∀ i : Nat, (i : Int) < cfg.ControlPlanes →
        ∃ node, nodes[i]? = some node ∧ node.Role = "control-plane") ∧
      (∀ i : Nat, cfg.ControlPlanes ≤ (i : Int) → (i : Int) < cfg.ControlPlanes + cfg.Workers →
        ∃ node, nodes[i]? = some node ∧ node.Role = "worker") := by
  obtain ⟨nodes, h⟩ := (buildNodes_ok_iff cfg).mpr hmake
  have hlen := buildNodes_length cfg nodes h
  refine ⟨nodes, h, by omega, ?_, ?_⟩
  · intro i hi
    have hlt : i < nodes.length := by omega
    refine ⟨nodes[i], List.getElem?_eq_getElem hlt, ?_⟩
    rcases buildNodes_getElem? cfg nodes h i _ (List.getElem?_eq_getElem hlt) with ⟨_, hn⟩ | ⟨hge, _⟩
    · rw [hn]; exact createControlPlaneNode_Role cfg _
    · omega
  · intro i hlo hhi
    have hlt : i < nodes.length := by omega
    refine ⟨nodes[i], List.getElem?_eq_getElem hlt, ?_⟩
    rcases buildNodes_getElem? cfg nodes h i _ (List.getElem?_eq_getElem hlt) with ⟨hi, _⟩ | ⟨_, hn⟩
    · omega
    · rw [hn]; exact createWorkerNode_Role cfg

/-- C1, at the configuration of TestBuildNodes_WithWorkers: three descriptors, a control
plane followed by two workers. -/
theorem buildNodes_count_and_roles_witness :
    ∃ nodes, buildNodes cfgWithWorkers = .ok nodes ∧ (nodes.length : Int) = 3 ∧
      (∃ node, nodes[0]? = some node ∧ node.Role = "control-plane") ∧
      (∃ node, nodes[1]? = some node ∧ node.Role = "worker") ∧
      (∃ node, nodes[2]? = some node ∧ node.Role = "worker") := by
  obtain ⟨nodes, h, hlen, hcps, hws⟩ :=
    buildNodes_count_and_roles cfgWithWorkers (by decide) (by decide) (by decide)
  exact ⟨nodes, h, hlen, hcps 0 (by decide), hws 1 (by decide) (by decide),
    hws 2 (by decide) (by decide)⟩

/-- C1 fails as stated: with controlPlanes = workers = 2^62 (so controlPlanes ≥ 1 and
workers ≥ 0) the capacity `cfg.ControlPlanes+cfg.Workers` wraps to -2^63 and buildNodes
panics in `make` instead of returning a list. -/
theorem buildNodes_cap_overflow_panics :
    1 ≤ cfgCapOverflow.ControlPlanes ∧ 0 ≤ cfgCapOverflow.Workers ∧
      nodesCap cfgCapOverflow = -9223372036854775808 ∧
      buildNodes cfgCapOverflow = .error .makesliceCapOutOfRange := by
  have hcap : nodesCap cfgCapOverflow = -9223372036854775808 := by decide
  exact ⟨by decide, by decide, hcap, (buildNodes_error_iff cfgCapOverflow).mpr (by decide)⟩

/-! ## C2: the validation of buildKindYAML -/

/-- C2: buildKindYAML returns the validation error ("at least one control plane node is
required") exactly when controlPlanes < 1, whatever the other fields and whatever the
encoder does; the manifest returned with it is the empty string; and for controlPlanes ≥ 1
no error it returns is the validation error or carries its text. -/
theorem buildKindYAML_validation (marshal : ClusterConfig → Except GoError String)
    (cfg : Config) :
    validationError.Error = "at least one control plane node is required" ∧
    ((∃ s, buildKindYAML marshal cfg = .ok (s, some validationError)) ↔
      cfg.ControlPlanes < 1) ∧
    (cfg.ControlPlanes < 1 → buildKindYAML marshal cfg = .ok ("", some validationError)) ∧
    (1 ≤ cfg.ControlPlanes → ∀ s err, buildKindYAML marshal cfg = .ok (s, some err) →
      err ≠ validationError ∧ err.Error ≠ validationError.Error) := by
  have hlt : cfg.ControlPlanes < 1 → buildKindYAML marshal cfg = .ok ("", some validationError) := by
    intro h
    simp [buildKindYAML, h]
  have hge : 1 ≤ cfg.ControlPlanes → ∀ s err, buildKindYAML marshal cfg = .ok (s, some err) →
      err ≠ validationError ∧ err.Error ≠ validationError.Error := by
    intro h s err hres
    have hnot : ¬ cfg.ControlPlanes < 1 := by omega
    simp only [buildKindYAML, hnot, if_false] at hres
    cases hc : buildCluster cfg with
    | error p => simp [hc, bind, Except.bind] at hres
    | ok cluster =>
      cases hm : marshal cluster with
      | ok data => simp [hc, hm, bind, Except.bind, pure, Except.pure, marshalReturn] at hres
      | error e =>
        simp [hc, hm, bind, Except.bind, pure, Except.pure, marshalReturn] at hres
        obtain ⟨_, rfl⟩ := hres
        refine ⟨?_, marshal_message_ne_validation _⟩
        intro habs
        cases habs
  refine ⟨rfl, ⟨?_, ?_⟩, hlt, hge⟩
  · rintro ⟨s, hs⟩
    by_contra hcp
    exact (hge (by omega) s _ hs).1 rfl
  · intro h
    exact ⟨"", hlt h⟩

/-! ## C3: the port mappings of descriptor 0 -/

/-- C3: for every configuration with controlPlanes ≥ 1, a list returned by buildNodes has a
descriptor 0 and its port-mapping list is the two ingress mappings (80:80 and 443:443,
TCP) if withIngress, else nothing, followed by the configuration's ports converted one by
one in configuration order (containerPort and hostPort copied unswapped, protocol "TCP").
buildNodes returns a list exactly when the allocation of the node list passes the check of
`make`. -/
theorem buildNodes_first_portMappings (cfg : Config) (hcp : 1 ≤ cfg.ControlPlanes) :
    ((∃ nodes, buildNodes cfg = .ok nodes) ↔ makesliceOK nodeSize (nodesCap cfg)) ∧
    ∀ nodes, buildNodes cfg = .ok nodes →
      ∃ node, nodes[0]? = some node ∧
        node.ExtraPortMappings =
          (if cfg.WithIngress then
              [ExtraPortMapping.mk 80 80 "TCP", ExtraPortMapping.mk 443 443 "TCP"]
            else []) ++
          cfg.Ports.map (fun pm => ExtraPortMapping.mk pm.ContainerPort pm.HostPort "TCP") := by
  refine ⟨buildNodes_ok_iff cfg, fun nodes h => ?_⟩
  refine ⟨_, buildNodes_getElem?_zero cfg hcp nodes h, ?_⟩
  rw [createControlPlaneNode_ExtraPortMappings, if_pos rfl]

/-- C3, at the configuration of TestBuildNodes_IngressAndCustomPortsCombined (withIngress
and the custom port 5432:5432): descriptor 0 maps 80, 443, 5432 in that order. -/
theorem buildNodes_first_portMappings_witness :
    ∃ nodes node, buildNodes cfgIngressAndCustomPorts = .ok nodes ∧ nodes[0]? = some node ∧
      node.ExtraPortMappings =
        [ExtraPortMapping.mk 80 80 "TCP", ExtraPortMapping.mk 443 443 "TCP",
         ExtraPortMapping.mk 5432 5432 "TCP"] := by
  have hthm := buildNodes_first_portMappings cfgIngressAndCustomPorts (by decide)
  obtain ⟨nodes, h⟩ := hthm.1.mpr (by decide)
  obtain ⟨node, h0, hports⟩ := hthm.2 nodes h
  exact ⟨nodes, node, h, h0, hports⟩

/-! ## C4: ingress on the first control plane only -/

/-- C4 (as amended): for every configuration with withIngress = true, controlPlanes ≥ 2 and
workers ≥ 0, in a list returned by buildNodes the descriptor at index 0 has exactly
2 + (number of custom ports) port mappings, namely 80:80 and 443:443 (TCP) followed by the
converted custom ports, so exactly those two when the configuration has no custom port, and
exactly one config patch; every other descriptor, control plane or worker, has no port
mapping and no config patch.  buildNodes returns a list when the 104-byte descriptors
of controlPlanes + workers nodes do not exceed `maxAlloc`. -/
theorem buildNodes_ingress_first_only (cfg : Config) (hing : cfg.WithIngress = true)
    (hcp : 2 ≤ cfg.ControlPlanes) (hw : 0 ≤ cfg.Workers) :
    (nodeSize * (cfg.ControlPlanes + cfg.Workers) ≤ maxAlloc →
      ∃ nodes, buildNodes cfg = .ok nodes) ∧
    ∀ nodes, buildNodes cfg = .ok nodes →
      (∃ node, nodes[0]? = some node ∧
        node.ExtraPortMappings =
          [ExtraPortMapping.mk 80 80 "TCP", ExtraPortMapping.mk 443 443 "TCP"] ++
            cfg.Ports.map (fun pm => ExtraPortMapping.mk pm.ContainerPort pm.HostPort "TCP") ∧
        node.ExtraPortMappings.length = 2 + cfg.Ports.length ∧
        (cfg.Ports = [] → node.ExtraPortMappings =
          [ExtraPortMapping.mk 80 80 "TCP", ExtraPortMapping.mk 443 443 "TCP"]) ∧
        node.KubeadmConfigPatches = [ingressReadyPatch] ∧
        node.KubeadmConfigPatches.length = 1) ∧
      (∀ (i : Nat) (node : Node), 0 < i → nodes[i]? = some node →
        node.ExtraPortMappings = [] ∧ node.KubeadmConfigPatches = []) := by
  refine ⟨buildNodes_ok_of_inRange cfg (by omega) hw, fun nodes h => ⟨?_, ?_⟩⟩
  · have hports : (createControlPlaneNode cfg 0).ExtraPortMappings =
        [ExtraPortMapping.mk 80 80 "TCP", ExtraPortMapping.mk 443 443 "TCP"] ++
          cfg.Ports.map (fun pm => ExtraPortMapping.mk pm.ContainerPort pm.HostPort "TCP") := by
      rw [createControlPlaneNode_ExtraPortMappings, if_pos rfl, if_pos hing]
    have hpatch : (createControlPlaneNode cfg 0).KubeadmConfigPatches = [ingressReadyPatch] := by
      rw [createControlPlaneNode_KubeadmConfigPatches, if_pos ⟨rfl, hing⟩]
    refine ⟨_, buildNodes_getElem?_zero cfg (by omega) nodes h, hports, ?_, ?_, hpatch, ?_⟩
    · rw [hports]; simp; omega
    · intro hnone
      rw [hports, hnone]; rfl
    · rw [hpatch]; rfl
  · intro i node hi hnode
    rcases buildNodes_getElem? cfg nodes h i node hnode with ⟨_, hn⟩ | ⟨_, hn⟩
    · have hne : Int.ofNat i ≠ 0 := by
        intro h0
        have : (i : Int) = 0 := h0
        omega
      rw [hn, createControlPlaneNode_ExtraPortMappings, createControlPlaneNode_KubeadmConfigPatches,
        if_neg hne, if_neg (fun hc => hne hc.1)]
      exact ⟨rfl, rfl⟩
    · rw [hn]
      exact ⟨createWorkerNode_ExtraPortMappings cfg, createWorkerNode_KubeadmConfigPatches cfg⟩

/-- C4, at the configuration of TestBuildNodes_IngressOnFirstControlPlaneOnly (two control
planes, one worker, withIngress, no custom port): descriptor 0 has the two ingress mappings
and one patch, descriptors 1 and 2 have neither. -/
theorem buildNodes_ingress_first_only_witness :
    ∃ nodes n0 n1 n2, buildNodes cfgIngressTwoControlPlanes = .ok nodes ∧
      nodes[0]? = some n0 ∧ nodes[1]? = some n1 ∧ nodes[2]? = some n2 ∧
      n0.ExtraPortMappings =
        [ExtraPortMapping.mk 80 80 "TCP", ExtraPortMapping.mk 443 443 "TCP"] ∧
      n0.KubeadmConfigPatches.length = 1 ∧
      (n1.ExtraPortMappings = [] ∧ n1.KubeadmConfigPatches = []) ∧
      (n2.ExtraPortMappings = [] ∧ n2.KubeadmConfigPatches = []) := by
  have hthm := buildNodes_ingress_first_only cfgIngressTwoControlPlanes rfl (by decide)
    (by decide)
  obtain ⟨nodes, h⟩ := hthm.1 (by decide)
  obtain ⟨⟨n0, h0, _, _, hports, _, hpatch⟩, hrest⟩ := hthm.2 nodes h
  have hlen := buildNodes_length _ nodes h
  have hlen3 : nodes.length = 3 := hlen
  have h1 : nodes[1]? = some nodes[1] := List.getElem?_eq_getElem (by omega)
  have h2 : nodes[2]? = some nodes[2] := List.getElem?_eq_getElem (by omega)
  exact ⟨nodes, n0, nodes[1], nodes[2], h, h0, h1, h2, hports rfl, hpatch,
    hrest 1 _ (by decide) h1, hrest 2 _ (by decide) h2⟩

/-- C4 fails as stated: with withIngress = true, controlPlanes = 2, workers = 1 and the
custom port 5432:5432, descriptor 0 of buildNodes has three port mappings, not two. -/
theorem buildNodes_ingress_three_portMappings :
    cfgIngressTwoControlPlanesPort.WithIngress = true ∧
    2 ≤ cfgIngressTwoControlPlanesPort.ControlPlanes ∧
    0 ≤ cfgIngressTwoControlPlanesPort.Workers ∧
    ∃ nodes node, buildNodes cfgIngressTwoControlPlanesPort = .ok nodes ∧
      nodes[0]? = some node ∧
      node.ExtraPortMappings =
        [ExtraPortMapping.mk 80 80 "TCP", ExtraPortMapping.mk 443 443 "TCP",
         ExtraPortMapping.mk 5432 5432 "TCP"] ∧
      node.ExtraPortMappings.length = 3 := by
  refine ⟨rfl, by decide, by decide, ?_⟩
  obtain ⟨nodes, h⟩ := (buildNodes_ok_iff cfgIngressTwoControlPlanesPort).mpr (by decide)
  have h0 := buildNodes_getElem?_zero cfgIngressTwoControlPlanesPort (by decide) nodes h
  have hports := createControlPlaneNode_ExtraPortMappings cfgIngressTwoControlPlanesPort 0
  exact ⟨nodes, _, h, h0, hports, by rw [hports]; rfl⟩

/-! ## C5: which descriptors carry port mappings -/

/-- C5: for every configuration with controlPlanes ≥ 1 and workers ≥ 0, a descriptor of a
list returned by buildNodes has a non-empty port-mapping list if and only if it is the
descriptor at index 0 and withIngress is true or the configuration has custom ports; so no
control plane at an index ≥ 1 and no worker has port mappings.  buildNodes returns a list
when the 104-byte descriptors of controlPlanes + workers nodes do not exceed `maxAlloc`. -/
theorem buildNodes_portMappings_nonempty_iff (cfg : Config) (hcp : 1 ≤ cfg.ControlPlanes)
    (hw : 0 ≤ cfg.Workers) :
    (nodeSize * (cfg.ControlPlanes + cfg.Workers) ≤ maxAlloc →
      ∃ nodes, buildNodes cfg = .ok nodes) ∧
    ∀ nodes, buildNodes cfg = .ok nodes → ∀ (i : Nat) (node : Node), nodes[i]? = some node →
      (node.ExtraPortMappings ≠ [] ↔
        i = 0 ∧ (cfg.WithIngress = true ∨ cfg.Ports ≠ [])) := by
  refine ⟨buildNodes_ok_of_inRange cfg hcp hw, fun nodes h i node hnode => ?_⟩
  rcases Nat.eq_zero_or_pos i with rfl | hpos
  · rw [buildNodes_getElem?_zero cfg hcp nodes h] at hnode
    cases hnode
    rw [createControlPlaneNode_ExtraPortMappings, if_pos rfl]
    cases hing : cfg.WithIngress <;> cases hp : cfg.Ports <;> simp
  · have hempty : node.ExtraPortMappings = [] := by
      rcases buildNodes_getElem? cfg nodes h i node hnode with ⟨_, hn⟩ | ⟨_, hn⟩
      · have hne : Int.ofNat i ≠ 0 := by
          intro h0
          have : (i : Int) = 0 := h0
          omega
        rw [hn, createControlPlaneNode_ExtraPortMappings, if_neg hne]
      · rw [hn]; exact createWorkerNode_ExtraPortMappings cfg
    constructor
    · intro hne; exact absurd hempty hne
    · rintro ⟨h0, _⟩; omega

/-- C5, at the configuration of TestBuildNodes_CustomPortsOnFirstControlPlaneOnly (one
control plane, one worker, two custom ports): the control plane has port mappings, the
worker has none. -/
theorem buildNodes_portMappings_nonempty_iff_witness :
    ∃ nodes n0 n1, buildNodes cfgCustomPorts = .ok nodes ∧
      nodes[0]? = some n0 ∧ nodes[1]? = some n1 ∧
      n0.ExtraPortMappings ≠ [] ∧ n1.ExtraPortMappings = [] := by
  have hthm := buildNodes_portMappings_nonempty_iff cfgCustomPorts (by decide) (by decide)
  obtain ⟨nodes, h⟩ := hthm.1 (by decide)
  have hlen : nodes.length = 2 := buildNodes_length _ nodes h
  have h0 : nodes[0]? = some nodes[0] := List.getElem?_eq_getElem (by omega)
  have h1 : nodes[1]? = some nodes[1] := List.getElem?_eq_getElem (by omega)
  refine ⟨nodes, nodes[0], nodes[1], h, h0, h1, ?_, ?_⟩
  · exact (hthm.2 nodes h 0 _ h0).mpr ⟨rfl, Or.inr (by decide)⟩
  · by_contra hne
    have := ((hthm.2 nodes h 1 _ h1).mp hne).1
    omega

/-! ## C6: the config patches of the descriptors -/

/-- C6: for every configuration with controlPlanes ≥ 1 and workers ≥ 0, in a list returned
by buildNodes the config-patch list of descriptor 0 is exactly [ingressReadyPatch] when
withIngress is true and empty when it is false, the config-patch list of every other
descriptor is empty, and ingressReadyPatch contains the text ingress-ready=true.
buildNodes returns a list when the 104-byte descriptors of controlPlanes + workers nodes do
not exceed `maxAlloc`. -/
theorem buildNodes_configPatches (cfg : Config) (hcp : 1 ≤ cfg.ControlPlanes)
    (hw : 0 ≤ cfg.Workers) :
    stringsContains ingressReadyPatch "ingress-ready=true" ∧
    (nodeSize * (cfg.ControlPlanes + cfg.Workers) ≤ maxAlloc →
      ∃ nodes, buildNodes cfg = .ok nodes) ∧
    ∀ nodes, buildNodes cfg = .ok nodes →
      (∃ node, nodes[0]? = some node ∧
        node.KubeadmConfigPatches = if cfg.WithIngress then [ingressReadyPatch] else []) ∧
      (∀ (i : Nat) (node : Node), 0 < i → nodes[i]? = some node →
        node.KubeadmConfigPatches = []) := by
  refine ⟨?_, buildNodes_ok_of_inRange cfg hcp hw, fun nodes h => ⟨?_, ?_⟩⟩
  · exact ⟨"kind: InitConfiguration\nnodeRegistration:\n  kubeletExtraArgs:\n    node-labels: \"".data,
      "\"".data, by decide⟩
  · refine ⟨_, buildNodes_getElem?_zero cfg hcp nodes h, ?_⟩
    rw [createControlPlaneNode_KubeadmConfigPatches]
    cases cfg.WithIngress <;> simp
  · intro i node hi hnode
    rcases buildNodes_getElem? cfg nodes h i node hnode with ⟨_, hn⟩ | ⟨_, hn⟩
    · have hne : Int.ofNat i ≠ 0 := by
        intro h0
        have : (i : Int) = 0 := h0
        omega
      rw [hn, createControlPlaneNode_KubeadmConfigPatches, if_neg (fun hc => hne hc.1)]
    · rw [hn]; exact createWorkerNode_KubeadmConfigPatches cfg

/-- C6, at the configuration of TestBuildNodes_IngressOnFirstControlPlaneOnly: descriptor 0
carries the one patch ingressReadyPatch, descriptors 1 and 2 carry none. -/
theorem buildNodes_configPatches_witness :
    ∃ nodes n0 n1 n2, buildNodes cfgIngressTwoControlPlanes = .ok nodes ∧
      nodes[0]? = some n0 ∧ nodes[1]? = some n1 ∧ nodes[2]? = some n2 ∧
      n0.KubeadmConfigPatches = [ingressReadyPatch] ∧
      n1.KubeadmConfigPatches = [] ∧ n2.KubeadmConfigPatches = [] := by
  have hthm := buildNodes_configPatches cfgIngressTwoControlPlanes (by decide) (by decide)
  obtain ⟨nodes, h⟩ := hthm.2.1 (by decide)
  obtain ⟨⟨n0, h0, hpatch⟩, hrest⟩ := hthm.2.2 nodes h
  have hlen : nodes.length = 3 := buildNodes_length _ nodes h
  have h1 : nodes[1]? = some nodes[1] := List.getElem?_eq_getElem (by omega)
  have h2 : nodes[2]? = some nodes[2] := List.getElem?_eq_getElem (by omega)
  exact ⟨nodes, n0, nodes[1], nodes[2], h, h0, h1, h2, hpatch,
    hrest 1 _ (by decide) h1, hrest 2 _ (by decide) h2⟩

/-! ## C7: the image of the descriptors -/

/-- C7: for every configuration and every descriptor of a list returned by buildNodes,
control plane or worker, at any index: if k8sVersion is not empty the image of the
descriptor is "kindest/node:" followed by k8sVersion, and if k8sVersion is empty the
descriptor has no image (the empty string).  buildNodes returns a list exactly when the
allocation of the node list passes the check of `make`. -/
theorem buildNodes_image (cfg : Config) :
    ((∃ nodes, buildNodes cfg = .ok nodes) ↔ makesliceOK nodeSize (nodesCap cfg)) ∧
    ∀ nodes, buildNodes cfg = .ok nodes → ∀ (i : Nat) (node : Node), nodes[i]? = some node →
      (cfg.K8sVersion ≠ "" → node.Image = "kindest/node:" ++ cfg.K8sVersion) ∧
      (cfg.K8sVersion = "" → node.Image = "") := by
  refine ⟨buildNodes_ok_iff cfg, fun nodes h i node hnode => ?_⟩
  have himg : node.Image =
      if cfg.K8sVersion ≠ "" then "kindest/node:" ++ cfg.K8sVersion else "" := by
    rcases buildNodes_getElem? cfg nodes h i node hnode with ⟨_, hn⟩ | ⟨_, hn⟩
    · rw [hn]; exact createControlPlaneNode_Image cfg _
    · rw [hn]; exact createWorkerNode_Image cfg
  constructor
  · intro hv; rw [himg, if_pos hv]
  · intro hv; rw [himg, if_neg (fun hne => hne hv)]

/-- C7, at the configuration of TestBuildNodes_KubernetesVersion (k8sVersion "v1.30.0", one
control plane, one worker): both descriptors have the image "kindest/node:v1.30.0". -/
theorem buildNodes_image_witness :
    ∃ n0 n1, buildNodes cfgKubernetesVersion = .ok [n0, n1] ∧
      n0.Role = "control-plane" ∧ n1.Role = "worker" ∧
      n0.Image = "kindest/node:v1.30.0" ∧ n1.Image = "kindest/node:v1.30.0" := by
  have hthm := buildNodes_image cfgKubernetesVersion
  have h : buildNodes cfgKubernetesVersion =
      .ok [createControlPlaneNode cfgKubernetesVersion 0, createWorkerNode cfgKubernetesVersion] := by
    rw [buildNodes_eq, if_pos (by decide)]
    rfl
  have hv : cfgKubernetesVersion.K8sVersion ≠ "" := by decide
  exact ⟨_, _, h, createControlPlaneNode_Role _ _, createWorkerNode_Role _,
    ((hthm.2 _ h 0 _ rfl).1 hv).trans (by decide), ((hthm.2 _ h 1 _ rfl).1 hv).trans (by decide)⟩

/-! ## C8: the mounts of the descriptors -/

/-- C8: for every configuration and every descriptor of a list returned by buildNodes,
whatever its role or index, the mount list of the descriptor has the length of the
configuration's mounts list and its k-th element has the hostPath and the containerPath of
the configuration's k-th mount; hence all descriptors carry the same mount list.
buildNodes returns a list exactly when the allocation of the node list passes the check of
`make`. -/
theorem buildNodes_mounts (cfg : Config) :
    ((∃ nodes, buildNodes cfg = .ok nodes) ↔ makesliceOK nodeSize (nodesCap cfg)) ∧
    ∀ nodes, buildNodes cfg = .ok nodes →
      (∀ (i : Nat) (node : Node), nodes[i]? = some node →
        node.ExtraMounts.length = cfg.Mounts.length ∧
        ∀ (k : Nat) (mm : MountMapping), cfg.Mounts[k]? = some mm →
          ∃ em, node.ExtraMounts[k]? = some em ∧
            em.HostPath = mm.HostPath ∧ em.ContainerPath = mm.ContainerPath) ∧
      (∀ (i j : Nat) (a b : Node), nodes[i]? = some a → nodes[j]? = some b →
        a.ExtraMounts = b.ExtraMounts) := by
  have hmounts : ∀ nodes, buildNodes cfg = .ok nodes → ∀ (i : Nat) (node : Node),
      nodes[i]? = some node →
      node.ExtraMounts = cfg.Mounts.map (fun mm => ExtraMount.mk mm.HostPath mm.ContainerPath) := by
    intro nodes h i node hnode
    rcases buildNodes_getElem? cfg nodes h i node hnode with ⟨_, hn⟩ | ⟨_, hn⟩
    · rw [hn]; exact createControlPlaneNode_ExtraMounts cfg _
    · rw [hn]; exact createWorkerNode_ExtraMounts cfg
  refine ⟨buildNodes_ok_iff cfg, fun nodes h => ⟨fun i node hnode => ?_, ?_⟩⟩
  · rw [hmounts nodes h i node hnode]
    refine ⟨by simp, fun k mm hk => ?_⟩
    exact ⟨ExtraMount.mk mm.HostPath mm.ContainerPath, by simp [List.getElem?_map, hk], rfl, rfl⟩
  · intro i j a b ha hb
    rw [hmounts nodes h i a ha, hmounts nodes h j b hb]

/-- C8, at the configuration of TestBuildNodes_MountsAppliedToAllNodes (one control plane,
two workers, mounts /src:/app and /data:/data): each of the three descriptors carries
these two mounts in this order. -/
theorem buildNodes_mounts_witness :
    ∃ n0 n1 n2, buildNodes cfgMounts = .ok [n0, n1, n2] ∧
      n0.ExtraMounts = [ExtraMount.mk "/src" "/app", ExtraMount.mk "/data" "/data"] ∧
      n1.ExtraMounts = n0.ExtraMounts ∧ n2.ExtraMounts = n0.ExtraMounts := by
  have hthm := buildNodes_mounts cfgMounts
  have h : buildNodes cfgMounts =
      .ok [createControlPlaneNode cfgMounts 0, createWorkerNode cfgMounts,
        createWorkerNode cfgMounts] := by
    rw [buildNodes_eq, if_pos (by decide)]
    rfl
  exact ⟨_, _, _, h, createControlPlaneNode_ExtraMounts cfgMounts 0,
    (hthm.2 _ h).2 1 0 _ _ rfl rfl, (hthm.2 _ h).2 2 0 _ _ rfl rfl⟩

/-! ## C9: the containerd patches of the cluster document -/

/-- C9: for every configuration with controlPlanes ≥ 1, the cluster document that
buildKindYAML constructs (the one value it hands to the encoder, whenever buildNodes
returns; otherwise buildKindYAML panics as buildNodes does) has its containerd patch list
equal to [localRegistryPatch] when withLocalRegistry is true and empty when it is false;
localRegistryPatch contains the texts localhost:5001 and http://kind-registry:5000. -/
theorem buildKindYAML_containerdConfigPatches (cfg : Config) (hcp : 1 ≤ cfg.ControlPlanes) :
    stringsContains localRegistryPatch "localhost:5001" ∧
    stringsContains localRegistryPatch "http://kind-registry:5000" ∧
    (∀ p, buildNodes cfg = .error p → ∀ marshal, buildKindYAML marshal cfg = .error p) ∧
    (∀ nodes, buildNodes cfg = .ok nodes →
      ∃ cluster : ClusterConfig,
        (∀ marshal, buildKindYAML marshal cfg = .ok (marshalReturn (marshal cluster))) ∧
        (∀ cluster' : ClusterConfig,
          (∀ marshal, buildKindYAML marshal cfg = .ok (marshalReturn (marshal cluster'))) →
          cluster' = cluster) ∧
        cluster.ContainerdConfigPatches =
          if cfg.WithLocalRegistry then [localRegistryPatch] else []) := by
  refine ⟨?_, ?_, fun p h marshal => buildKindYAML_of_buildNodes_error marshal cfg hcp p h,
    fun nodes h => ?_⟩
  · exact ⟨"[plugins.\"io.containerd.grpc.v1.cri\".registry.mirrors.\"".data,
      "\"]\n  endpoint = [\"http://kind-registry:5000\"]".data, by decide⟩
  · exact ⟨"[plugins.\"io.containerd.grpc.v1.cri\".registry.mirrors.\"localhost:5001\"]\n  endpoint = [\"".data,
      "\"]".data, by decide⟩
  · refine ⟨_, fun marshal => buildKindYAML_of_buildNodes_ok marshal cfg hcp nodes h, ?_, rfl⟩
    intro cluster' h'
    apply marshalReturn_separates
    intro marshal
    have h1 := h' marshal
    rw [buildKindYAML_of_buildNodes_ok marshal cfg hcp nodes h] at h1
    exact (Except.ok.inj h1).symm

/-- C9, at the configuration of TestBuildKindYAML_LocalRegistry (one control plane,
withLocalRegistry): the document handed to the encoder has the one containerd patch
localRegistryPatch. -/
theorem buildKindYAML_containerdConfigPatches_witness :
    ∃ cluster : ClusterConfig,
      (∀ marshal, buildKindYAML marshal cfgLocalRegistry = .ok (marshalReturn (marshal cluster))) ∧
      cluster.ContainerdConfigPatches = [localRegistryPatch] := by
  have hthm := buildKindYAML_containerdConfigPatches cfgLocalRegistry (by decide)
  obtain ⟨nodes, h⟩ := (buildNodes_ok_iff cfgLocalRegistry).mpr (by decide)
  obtain ⟨cluster, hrun, _, hpatches⟩ := hthm.2.2.2 nodes h
  exact ⟨cluster, hrun, hpatches⟩

/-! ## C10: the fields of the cluster document -/

/-- C10: for every configuration with controlPlanes ≥ 1, the cluster document that
buildKindYAML constructs before serialisation (the one value it hands to the encoder,
whenever buildNodes returns; otherwise buildKindYAML panics as buildNodes does) has kind
"Cluster", the apiVersion of the configuration, the name of the configuration, and as
nodes the list returned by buildNodes. -/
theorem buildKindYAML_document_fields (cfg : Config) (hcp : 1 ≤ cfg.ControlPlanes) :
    (∀ p, buildNodes cfg = .error p → ∀ marshal, buildKindYAML marshal cfg = .error p) ∧
    (∀ nodes, buildNodes cfg = .ok nodes →
      ∃ cluster : ClusterConfig,
        (∀ marshal, buildKindYAML marshal cfg = .ok (marshalReturn (marshal cluster))) ∧
        (∀ cluster' : ClusterConfig,
          (∀ marshal, buildKindYAML marshal cfg = .ok (marshalReturn (marshal cluster'))) →
          cluster' = cluster) ∧
        cluster.Kind = "Cluster" ∧ cluster.APIVersion = cfg.APIVersion ∧
        cluster.Name = cfg.Name ∧ cluster.Nodes = nodes) := by
  refine ⟨fun p h marshal => buildKindYAML_of_buildNodes_error marshal cfg hcp p h,
    fun nodes h => ?_⟩
  refine ⟨_, fun marshal => buildKindYAML_of_buildNodes_ok marshal cfg hcp nodes h, ?_,
    rfl, rfl, rfl, rfl⟩
  intro cluster' h'
  apply marshalReturn_separates
  intro marshal
  have h1 := h' marshal
  rw [buildKindYAML_of_buildNodes_ok marshal cfg hcp nodes h] at h1
  exact (Except.ok.inj h1).symm

/-- C10, at the configuration of TestBuildKindYAML_LocalRegistry: the document handed to
the encoder is kind "Cluster", apiVersion "kind.x-k8s.io/v1alpha4", no name, and the one
control-plane descriptor that buildNodes returns. -/
theorem buildKindYAML_document_fields_witness :
    ∃ cluster : ClusterConfig,
      (∀ marshal, buildKindYAML marshal cfgLocalRegistry = .ok (marshalReturn (marshal cluster))) ∧
      cluster.Kind = "Cluster" ∧ cluster.APIVersion = "kind.x-k8s.io/v1alpha4" ∧
      cluster.Name = "" ∧ cluster.Nodes = [{ Role := "control-plane" }] ∧
      buildNodes cfgLocalRegistry = .ok cluster.Nodes := by
  have hthm := buildKindYAML_document_fields cfgLocalRegistry (by decide)
  have h : buildNodes cfgLocalRegistry = .ok [{ Role := "control-plane" }] := by
    rw [buildNodes_eq, if_pos (by decide)]
    rfl
  obtain ⟨cluster, hrun, _, hkind, hapi, hname, hnodes⟩ := hthm.2 _ h
  exact ⟨cluster, hrun, hkind, hapi, hname, hnodes, hnodes ▸ h⟩

/-! ### Splitting a flag value at its colons -/

theorem splitChars_cases (sep : Char) (l : List Char) :
    (sep ∉ l ∧ splitChars sep l = [l]) ∨
    ∃ a b, l = a ++ sep :: b ∧ sep ∉ a ∧ splitChars sep l = a :: splitChars sep b := by
  induction l with
  | nil => exact Or.inl ⟨List.not_mem_nil _, rfl⟩
  | cons c cs ih =>
    by_cases hc : c = sep
    · right
      exact ⟨[], cs, by simp [hc], List.not_mem_nil _, by simp [splitChars, hc]⟩
    · rcases ih with ⟨hnot, hs⟩ | ⟨a, b, hl, hnot, hs⟩
      · left
        refine ⟨?_, by simp [splitChars, hc, hs]⟩
        intro hmem
        rcases List.mem_cons.mp hmem with h | h
        · exact hc h.symm
        · exact hnot h
      · right
        refine ⟨c :: a, b, by simp [hl], ?_, by simp [splitChars, hc, hs]⟩
        intro hmem
        rcases List.mem_cons.mp hmem with h | h
        · exact hc h.symm
        · exact hnot h

theorem splitChars_ne_nil (sep : Char) (l : List Char) : splitChars sep l ≠ [] := by
  rcases splitChars_cases sep l with ⟨_, hs⟩ | ⟨a, b, _, _, hs⟩ <;> simp [hs]

theorem splitChars_of_not_mem (sep : Char) (l : List Char) (h : sep ∉ l) :
    splitChars sep l = [l] := by
  rcases splitChars_cases sep l with ⟨_, hs⟩ | ⟨a, b, hl, _, _⟩
  · exact hs
  · exact absurd (by simp [hl]) h

theorem splitChars_append_sep (sep : Char) (a b : List Char) (h : sep ∉ a) :
    splitChars sep (a ++ sep :: b) = a :: splitChars sep b := by
  induction a with
  | nil => simp [splitChars]
  | cons c cs ih =>
    have hc : c ≠ sep := fun hc => h (by simp [hc])
    have hcs : sep ∉ cs := fun hm => h (List.mem_cons_of_mem _ hm)
    simp [splitChars, hc, ih hcs]

/-- Exactly two pieces: one separator, with the text before it and the text after it. -/
theorem splitChars_eq_pair_iff (sep : Char) (l x y : List Char) :
    splitChars sep l = [x, y] ↔ l = x ++ sep :: y ∧ sep ∉ x ∧ sep ∉ y := by
  constructor
  · intro h
    rcases splitChars_cases sep l with ⟨_, hs⟩ | ⟨a, b, hl, hnot, hs⟩
    · rw [hs] at h; simp at h
    · rw [hs] at h
      obtain ⟨rfl, hb⟩ := List.cons.inj h
      rcases splitChars_cases sep b with ⟨hnb, hsb⟩ | ⟨a', b', _, _, hsb⟩
      · rw [hsb] at hb
        obtain ⟨rfl, _⟩ := List.cons.inj hb
        exact ⟨hl, hnot, hnb⟩
      · rw [hsb] at hb
        exact absurd (List.cons.inj hb).2 (splitChars_ne_nil sep b')
  · rintro ⟨rfl, hx, hy⟩
    rw [splitChars_append_sep sep x y hx, splitChars_of_not_mem sep y hy]

theorem count_sep_eq_one_iff (sep : Char) (a b : List Char) :
    (a ++ sep :: b).count sep = 1 ↔ sep ∉ a ∧ sep ∉ b := by
  rw [List.count_append, List.count_cons_self, ← List.count_eq_zero, ← List.count_eq_zero]
  omega

theorem stringsSplit_eq_pair_iff (value a b : String) :
    stringsSplit value ':' = [a, b] ↔ value = a ++ ":" ++ b ∧ value.data.count ':' = 1 := by
  have hdata : value = a ++ ":" ++ b ↔ value.data = a.data ++ ':' :: b.data := by
    rw [String.ext_iff]; simp [String.data_append]
  constructor
  · intro h
    have hs : splitChars ':' value.data = [a.data, b.data] := by
      unfold stringsSplit at h
      have := congrArg (List.map String.data) h
      simpa [List.map_map, Function.comp_def] using this
    have hp := (splitChars_eq_pair_iff _ _ _ _).mp hs
    exact ⟨hdata.mpr hp.1, by rw [hp.1]; exact (count_sep_eq_one_iff _ _ _).mpr ⟨hp.2.1, hp.2.2⟩⟩
  · rintro ⟨hv, hcount⟩
    have hd := hdata.mp hv
    rw [hd] at hcount
    have hn := (count_sep_eq_one_iff _ _ _).mp hcount
    unfold stringsSplit
    rw [(splitChars_eq_pair_iff _ _ _ _).mpr ⟨hd, hn.1, hn.2⟩]
    rfl

theorem PortMappings_Set_of_pair (p : PortMappings) (value a b : String)
    (h : stringsSplit value ':' = [a, b]) :
    PortMappings.Set p value =
      match strconvAtoi a with
      | none => (p, some (.errorString ("invalid host port: " ++ a)))
      | some hostPort =>
        match strconvAtoi b with
        | none => (p, some (.errorString ("invalid container port: " ++ b)))
        | some containerPort =>
          (p ++ [{ HostPort := hostPort, ContainerPort := containerPort }], none) := by
  simp only [PortMappings.Set, h]

theorem PortMappings_Set_of_not_pair (p : PortMappings) (value : String)
    (h : ∀ a b, stringsSplit value ':' ≠ [a, b]) :
    PortMappings.Set p value =
      (p, some (.errorString
        ("invalid port mapping format: " ++ value ++ " (expected host:container)"))) := by
  unfold PortMappings.Set
  split
  · next a b hs => exact absurd hs (h a b)
  · rfl

theorem MountMappings_Set_of_pair (m : MountMappings) (value a b : String)
    (h : stringsSplit value ':' = [a, b]) :
    MountMappings.Set m value =
      if a = "" ∨ b = "" then (m, some (.errorString "mount paths cannot be empty"))
      else (m ++ [{ HostPath := a, ContainerPath := b }], none) := by
  simp only [MountMappings.Set, h]

theorem MountMappings_Set_of_not_pair (m : MountMappings) (value : String)
    (h : ∀ a b, stringsSplit value ':' ≠ [a, b]) :
    MountMappings.Set m value =
      (m, some (.errorString
        ("invalid mount mapping format: " ++ value ++ " (expected host:container)"))) := by
  unfold MountMappings.Set
  split
  · next a b hs => exact absurd hs (h a b)
  · rfl

/-! ## C13: PortMappings.Set -/

/-- C13: PortMappings.Set(value) succeeds if and only if value is a ++ ":" ++ b with exactly
one ':' in it and strconv.Atoi accepts both a, the part before the ':', and b, the part
after it; on success the accumulated list is the old list followed by one element whose
hostPort is the integer of a and whose containerPort is the integer of b; on failure an
error is returned and the accumulated list is unchanged. -/
theorem PortMappings_Set_spec (p : PortMappings) (value : String) :
    ((PortMappings.Set p value).2 = none ↔
      ∃ a b : String, value = a ++ ":" ++ b ∧ value.data.count ':' = 1 ∧
        (∃ hostPort, strconvAtoi a = some hostPort) ∧
        (∃ containerPort, strconvAtoi b = some containerPort)) ∧
    (∀ (a b : String) (hostPort containerPort : Int),
      value = a ++ ":" ++ b → value.data.count ':' = 1 →
      strconvAtoi a = some hostPort → strconvAtoi b = some containerPort →
      PortMappings.Set p value =
        (p ++ [{ HostPort := hostPort, ContainerPort := containerPort }], none)) ∧
    ((PortMappings.Set p value).2 ≠ none → (PortMappings.Set p value).1 = p) := by
  have hsucc : ∀ (a b : String) (hostPort containerPort : Int),
      value = a ++ ":" ++ b → value.data.count ':' = 1 →
      strconvAtoi a = some hostPort → strconvAtoi b = some containerPort →
      PortMappings.Set p value =
        (p ++ [{ HostPort := hostPort, ContainerPort := containerPort }], none) := by
    intro a b hostPort containerPort hv hc ha hb
    rw [PortMappings_Set_of_pair p value a b ((stringsSplit_eq_pair_iff value a b).mpr ⟨hv, hc⟩),
      ha, hb]
  have hcases : (∃ a b : String, value = a ++ ":" ++ b ∧ value.data.count ':' = 1 ∧
        (∃ hostPort, strconvAtoi a = some hostPort) ∧
        (∃ containerPort, strconvAtoi b = some containerPort)) ∨
      ((PortMappings.Set p value).2 ≠ none ∧ (PortMappings.Set p value).1 = p ∧
        ¬ ∃ a b : String, value = a ++ ":" ++ b ∧ value.data.count ':' = 1 ∧
          (∃ hostPort, strconvAtoi a = some hostPort) ∧
          (∃ containerPort, strconvAtoi b = some containerPort)) := by
    by_cases hpair : ∃ a b, stringsSplit value ':' = [a, b]
    · obtain ⟨a, b, hs⟩ := hpair
      have hvc := (stringsSplit_eq_pair_iff value a b).mp hs
      have huniq : ∀ a' b' : String, value = a' ++ ":" ++ b' → value.data.count ':' = 1 →
          a' = a ∧ b' = b := by
        intro a' b' hv' hc'
        have hs' := (stringsSplit_eq_pair_iff value a' b').mpr ⟨hv', hc'⟩
        rw [hs] at hs'
        simp at hs'
        exact ⟨hs'.1.symm, hs'.2.symm⟩
      cases ha : strconvAtoi a with
      | none =>
        right
        rw [PortMappings_Set_of_pair p value a b hs, ha]
        refine ⟨by simp, rfl, ?_⟩
        rintro ⟨a', b', hv', hc', ⟨h', ha'⟩, _⟩
        rw [(huniq a' b' hv' hc').1, ha] at ha'
        cases ha'
      | some hostPort =>
        cases hb : strconvAtoi b with
        | none =>
          right
          rw [PortMappings_Set_of_pair p value a b hs, ha, hb]
          refine ⟨by simp, rfl, ?_⟩
          rintro ⟨a', b', hv', hc', _, ⟨c', hb'⟩⟩
          rw [(huniq a' b' hv' hc').2, hb] at hb'
          cases hb'
        | some containerPort =>
          left
          exact ⟨a, b, hvc.1, hvc.2, ⟨hostPort, ha⟩, ⟨containerPort, hb⟩⟩
    · right
      have hno : ∀ a b, stringsSplit value ':' ≠ [a, b] := fun a b hs => hpair ⟨a, b, hs⟩
      rw [PortMappings_Set_of_not_pair p value hno]
      refine ⟨by simp, rfl, ?_⟩
      rintro ⟨a, b, hv, hc, _, _⟩
      exact hno a b ((stringsSplit_eq_pair_iff value a b).mpr ⟨hv, hc⟩)
  refine ⟨⟨?_, ?_⟩, hsucc, ?_⟩
  · intro hnone
    rcases hcases with h | ⟨hne, _, _⟩
    · exact h
    · exact absurd hnone hne
  · rintro ⟨a, b, hv, hc, ⟨hostPort, ha⟩, ⟨containerPort, hb⟩⟩
    rw [hsucc a b hostPort containerPort hv hc ha hb]
  · intro hne
    rcases hcases with ⟨a, b, hv, hc, ⟨hostPort, ha⟩, ⟨containerPort, hb⟩⟩ | ⟨_, hp, _⟩
    · rw [hsucc a b hostPort containerPort hv hc ha hb] at hne
      exact absurd rfl hne
    · exact hp

/-- C13, at the flag value "8080:80": Set succeeds and appends hostPort 8080, containerPort
80 to the list; at "8080" and at "8080:http" it fails and leaves the list as it was. -/
theorem PortMappings_Set_spec_witness :
    PortMappings.Set [{ HostPort := 5432, ContainerPort := 5432 }] "8080:80" =
      ([{ HostPort := 5432, ContainerPort := 5432 }, { HostPort := 8080, ContainerPort := 80 }],
        none) ∧
    (PortMappings.Set [{ HostPort := 5432, ContainerPort := 5432 }] "8080").1 =
      [{ HostPort := 5432, ContainerPort := 5432 }] ∧
    (PortMappings.Set [{ HostPort := 5432, ContainerPort := 5432 }] "8080:http").1 =
      [{ HostPort := 5432, ContainerPort := 5432 }] :=
  ⟨(PortMappings_Set_spec _ "8080:80").2.1 "8080" "80" 8080 80 (by decide) (by decide)
      (by decide) (by decide),
   (PortMappings_Set_spec _ "8080").2.2 (by decide),
   (PortMappings_Set_spec _ "8080:http").2.2 (by decide)⟩

/-! ## C14: MountMappings.Set -/

/-- C14: MountMappings.Set(value) succeeds if and only if value is a ++ ":" ++ b with
exactly one ':' in it and both a, the part before the ':', and b, the part after it, are
not empty; on success the accumulated list is the old list followed by one element whose
hostPath is a and whose containerPath is b, as they are; on failure an error is returned
and the accumulated list is unchanged. -/
theorem MountMappings_Set_spec (m : MountMappings) (value : String) :
    ((MountMappings.Set m value).2 = none ↔
      ∃ a b : String, value = a ++ ":" ++ b ∧ value.data.count ':' = 1 ∧ a ≠ "" ∧ b ≠ "") ∧
    (∀ a b : String, value = a ++ ":" ++ b → value.data.count ':' = 1 → a ≠ "" → b ≠ "" →
      MountMappings.Set m value = (m ++ [{ HostPath := a, ContainerPath := b }], none)) ∧
    ((MountMappings.Set m value).2 ≠ none → (MountMappings.Set m value).1 = m) := by
  have hsucc : ∀ a b : String, value = a ++ ":" ++ b → value.data.count ':' = 1 →
      a ≠ "" → b ≠ "" →
      MountMappings.Set m value = (m ++ [{ HostPath := a, ContainerPath := b }], none) := by
    intro a b hv hc ha hb
    rw [MountMappings_Set_of_pair m value a b ((stringsSplit_eq_pair_iff value a b).mpr ⟨hv, hc⟩),
      if_neg (by simp [ha, hb])]
  have hfail : (¬ ∃ a b : String, value = a ++ ":" ++ b ∧ value.data.count ':' = 1 ∧
      a ≠ "" ∧ b ≠ "") →
      (MountMappings.Set m value).2 ≠ none ∧ (MountMappings.Set m value).1 = m := by
    intro hno
    by_cases hpair : ∃ a b, stringsSplit value ':' = [a, b]
    · obtain ⟨a, b, hs⟩ := hpair
      have hvc := (stringsSplit_eq_pair_iff value a b).mp hs
      have hempty : a = "" ∨ b = "" := by
        by_contra hne
        push_neg at hne
        exact hno ⟨a, b, hvc.1, hvc.2, hne.1, hne.2⟩
      rw [MountMappings_Set_of_pair m value a b hs, if_pos hempty]
      exact ⟨by simp, rfl⟩
    · have hnp : ∀ a b, stringsSplit value ':' ≠ [a, b] := fun a b hs => hpair ⟨a, b, hs⟩
      rw [MountMappings_Set_of_not_pair m value hnp]
      exact ⟨by simp, rfl⟩
  refine ⟨⟨?_, ?_⟩, hsucc, ?_⟩
  · intro hnone
    by_contra hno
    exact (hfail hno).1 hnone
  · rintro ⟨a, b, hv, hc, ha, hb⟩
    rw [hsucc a b hv hc ha hb]
  · intro hne
    by_cases hex : ∃ a b : String, value = a ++ ":" ++ b ∧ value.data.count ':' = 1 ∧
        a ≠ "" ∧ b ≠ ""
    · obtain ⟨a, b, hv, hc, ha, hb⟩ := hex
      rw [hsucc a b hv hc ha hb] at hne
      exact absurd rfl hne
    · exact (hfail hex).2

/-- C14, at the flag value "/src:/app": Set succeeds and appends hostPath "/src",
containerPath "/app"; at "/src:" and at "/src:/app:ro" it fails and leaves the list as it
was. -/
theorem MountMappings_Set_spec_witness :
    MountMappings.Set [] "/src:/app" = ([{ HostPath := "/src", ContainerPath := "/app" }], none) ∧
    (MountMappings.Set [] "/src:").1 = [] ∧
    (MountMappings.Set [] "/src:/app:ro").1 = [] :=
  ⟨(MountMappings_Set_spec [] "/src:/app").2.1 "/src" "/app" (by decide) (by decide)
      (by decide) (by decide),
   (MountMappings_Set_spec [] "/src:").2.2 (by decide),
   (MountMappings_Set_spec [] "/src:/app:ro").2.2 (by decide)⟩

/-! ### The outcomes of buildKindYAML -/

theorem buildKindYAML_error_ne_validation (marshal : ClusterConfig → Except GoError String)
    (cfg : Config) (hcp : 1 ≤ cfg.ControlPlanes) (text : String) (err : GoError)
    (h : buildKindYAML marshal cfg = .ok (text, some err)) :
    err ≠ validationError ∧ err.Error ≠ validationError.Error := by
  cases hn : buildNodes cfg with
  | error p =>
    rw [buildKindYAML_of_buildNodes_error marshal cfg hcp p hn] at h
    cases h
  | ok nodes =>
    rw [buildKindYAML_of_buildNodes_ok marshal cfg hcp nodes hn] at h
    generalize marshal _ = answer at h
    cases answer with
    | ok data => simp [marshalReturn] at h
    | error e =>
      simp only [marshalReturn, Except.ok.injEq, Prod.mk.injEq, Option.some.injEq] at h
      rw [← h.2]
      exact ⟨(fun habs => nomatch habs), marshal_message_ne_validation _⟩

theorem buildKindYAML_returns (marshal : ClusterConfig → Except GoError String) (cfg : Config)
    (h : cfg.ControlPlanes < 1 ∨ makesliceOK nodeSize (nodesCap cfg)) :
    ∃ text err, buildKindYAML marshal cfg = .ok (text, err) ∧
      (err = none ∨
        (text = "" ∧ err = some validationError) ∨
        (text = "" ∧ ∃ e : GoError,
          err = some (.wrapError ("failed to marshal yaml: " ++ e.Error) e))) := by
  by_cases hcp : cfg.ControlPlanes < 1
  · exact ⟨"", some validationError, by simp [buildKindYAML, hcp], Or.inr (Or.inl ⟨rfl, rfl⟩)⟩
  · have hcap : makesliceOK nodeSize (nodesCap cfg) := h.resolve_left hcp
    obtain ⟨nodes, hn⟩ := (buildNodes_ok_iff cfg).mpr hcap
    rw [buildKindYAML_of_buildNodes_ok marshal cfg (by omega) nodes hn]
    generalize marshal _ = answer
    cases answer with
    | ok data => exact ⟨data, none, rfl, Or.inl rfl⟩
    | error e => exact ⟨"", _, rfl, Or.inr (Or.inr ⟨rfl, e, rfl⟩)⟩

/-! ## C12: the failure modes of buildKindYAML -/

/-- C12 (as amended): for every configuration with controlPlanes < 1, or for which the
allocation `make([]Node, 0, controlPlanes+workers)` of the node list passes the check of
the runtime (the capacity, as a Go `int`, is not negative and its 104-byte descriptors do
not exceed `maxAlloc`; so whenever workers ≥ 0 and 104 * (controlPlanes + workers) is at
most `maxAlloc`), buildKindYAML finishes by returning a manifest without error, or no text
and the validation error, or no text and the wrapped error of the encoder, whatever text
or error the encoder answers; for controlPlanes ≥ 1 and a capacity that fails the check,
negative or too large, the allocation of the node list in buildNodes panics and
buildKindYAML aborts; there is no other outcome. -/
theorem buildKindYAML_failure_modes (marshal : ClusterConfig → Except GoError String)
    (cfg : Config) :
    (cfg.ControlPlanes < 1 ∨ makesliceOK nodeSize (nodesCap cfg) →
      ∃ text err, buildKindYAML marshal cfg = .ok (text, err) ∧
        (err = none ∨
          (text = "" ∧ err = some validationError) ∨
          (text = "" ∧ ∃ e : GoError,
            err = some (.wrapError ("failed to marshal yaml: " ++ e.Error) e)))) ∧
    (0 ≤ cfg.Workers → nodeSize * (cfg.ControlPlanes + cfg.Workers) ≤ maxAlloc →
      cfg.ControlPlanes < 1 ∨ makesliceOK nodeSize (nodesCap cfg)) ∧
    (1 ≤ cfg.ControlPlanes → ¬ makesliceOK nodeSize (nodesCap cfg) →
      buildKindYAML marshal cfg = .error .makesliceCapOutOfRange) ∧
    (buildKindYAML marshal cfg = .error .makesliceCapOutOfRange ∨
      ∃ text err, buildKindYAML marshal cfg = .ok (text, err) ∧
        (err = none ∨
          (text = "" ∧ err = some validationError) ∨
          (text = "" ∧ ∃ e : GoError,
            err = some (.wrapError ("failed to marshal yaml: " ++ e.Error) e)))) := by
  have hpanic : 1 ≤ cfg.ControlPlanes → ¬ makesliceOK nodeSize (nodesCap cfg) →
      buildKindYAML marshal cfg = .error .makesliceCapOutOfRange := by
    intro hcp hcap
    exact buildKindYAML_of_buildNodes_error marshal cfg hcp _
      ((buildNodes_error_iff cfg).mpr hcap)
  refine ⟨buildKindYAML_returns marshal cfg, ?_, hpanic, ?_⟩
  · intro hw hfit
    by_cases hcp : cfg.ControlPlanes < 1
    · exact Or.inl hcp
    · right
      rw [nodesCap_of_fit cfg (by omega) hfit]
      exact ⟨by omega, hfit⟩
  · by_cases h : cfg.ControlPlanes < 1 ∨ makesliceOK nodeSize (nodesCap cfg)
    · exact Or.inr (buildKindYAML_returns marshal cfg h)
    · push_neg at h
      exact Or.inl (hpanic (by omega) h.2)

/-- C12, at the configuration of TestBuildNodes_WithWorkers: whatever the encoder answers,
buildKindYAML returns its text without error, or no text and its wrapped error. -/
theorem buildKindYAML_failure_modes_witness :
    (∃ text err, buildKindYAML (fun _ => .ok "nodes") cfgWithWorkers = .ok (text, err) ∧
      (err = none ∨ (text = "" ∧ err = some validationError) ∨
        (text = "" ∧ ∃ e : GoError,
          err = some (.wrapError ("failed to marshal yaml: " ++ e.Error) e)))) ∧
    (∃ text err,
      buildKindYAML (fun _ => .error (.errorString "encoder")) cfgWithWorkers = .ok (text, err) ∧
      (err = none ∨ (text = "" ∧ err = some validationError) ∨
        (text = "" ∧ ∃ e : GoError,
          err = some (.wrapError ("failed to marshal yaml: " ++ e.Error) e)))) :=
  ⟨(buildKindYAML_failure_modes _ cfgWithWorkers).1 (Or.inr (by decide)),
   (buildKindYAML_failure_modes _ cfgWithWorkers).1 (Or.inr (by decide))⟩

/-- C12 fails as stated: for the configuration with controlPlanes = 1 and workers = -2 the
capacity is -1, the allocation in buildNodes panics, and buildKindYAML, whatever the
encoder, aborts with that panic instead of returning a manifest or an error. -/
theorem buildKindYAML_negative_workers_panics :
    nodesCap cfgNegativeWorkers = -1 ∧
    buildNodes cfgNegativeWorkers = .error .makesliceCapOutOfRange ∧
    ∀ marshal, buildKindYAML marshal cfgNegativeWorkers = .error .makesliceCapOutOfRange := by
  have hcap : nodesCap cfgNegativeWorkers = -1 := by decide
  have hn : buildNodes cfgNegativeWorkers = .error .makesliceCapOutOfRange :=
    (buildNodes_error_iff cfgNegativeWorkers).mpr (by decide)
  exact ⟨hcap, hn, fun marshal =>
    buildKindYAML_of_buildNodes_error marshal cfgNegativeWorkers (by decide) _ hn⟩

/-! ## C16: the minimal cluster -/

/-- C16: for the configuration with controlPlanes = 1, workers = 0 and every other field
at its zero value, buildNodes returns exactly one descriptor, whose role is "control-plane"
and which has no image, no port mappings, no mounts and no config patches. -/
theorem buildNodes_minimal_cluster :
    cfgMinimal = { ControlPlanes := 1, Workers := 0 } ∧
    buildNodes cfgMinimal =
      .ok [{ Role := "control-plane", Image := "", ExtraPortMappings := [],
             ExtraMounts := [], KubeadmConfigPatches := [] }] := by
  refine ⟨rfl, ?_⟩
  rw [buildNodes_eq, if_pos (by decide)]
  rfl

/-! ## C17: the normalisation of parseFlags -/

/-- C17: the normalisation at the end of parseFlags maps every parsed configuration to one
with controlPlanes ≥ 1 and workers ≥ 0: a controlPlanes below 1 becomes 1, a negative
workers becomes 0, values in range and all other fields are unchanged; and buildKindYAML
never returns the validation error, nor an error with its text, for a configuration
produced by parseFlags. -/
theorem parseFlags_normalises (parsed : Config)
    (marshal : ClusterConfig → Except GoError String) :
    1 ≤ (parseFlags parsed).ControlPlanes ∧ 0 ≤ (parseFlags parsed).Workers ∧
    (parseFlags parsed).ControlPlanes =
      (if parsed.ControlPlanes < 1 then 1 else parsed.ControlPlanes) ∧
    (parseFlags parsed).Workers = (if parsed.Workers < 0 then 0 else parsed.Workers) ∧
    ((parseFlags parsed).Name = parsed.Name ∧
      (parseFlags parsed).K8sVersion = parsed.K8sVersion ∧
      (parseFlags parsed).APIVersion = parsed.APIVersion ∧
      (parseFlags parsed).WithIngress = parsed.WithIngress ∧
      (parseFlags parsed).WithLocalRegistry = parsed.WithLocalRegistry ∧
      (parseFlags parsed).Ports = parsed.Ports ∧
      (parseFlags parsed).Mounts = parsed.Mounts) ∧
    (∀ text err, buildKindYAML marshal (parseFlags parsed) = .ok (text, some err) →
      err ≠ validationError ∧ err.Error ≠ validationError.Error) := by
  have hcp : (parseFlags parsed).ControlPlanes =
      (if parsed.ControlPlanes < 1 then 1 else parsed.ControlPlanes) := by
    simp only [parseFlags]
    split_ifs <;> rfl
  have hw : (parseFlags parsed).Workers = (if parsed.Workers < 0 then 0 else parsed.Workers) := by
    simp only [parseFlags]
    split_ifs <;> rfl
  have hcp1 : 1 ≤ (parseFlags parsed).ControlPlanes := by
    rw [hcp]; split_ifs <;> omega
  have hw0 : 0 ≤ (parseFlags parsed).Workers := by
    rw [hw]; split_ifs <;> omega
  refine ⟨hcp1, hw0, hcp, hw, ?_, fun text err h =>
    buildKindYAML_error_ne_validation marshal _ hcp1 text err h⟩
  simp only [parseFlags]
  split_ifs <;> exact ⟨rfl, rfl, rfl, rfl, rfl, rfl, rfl⟩

/-- C17, at what the flags `-control-plane 0 -worker -3` leave: parseFlags returns one
control plane and no worker, the name and the API version as parsed. -/
theorem parseFlags_normalises_witness :
    (parseFlags parsedZeroControlPlanes).ControlPlanes = 1 ∧
    (parseFlags parsedZeroControlPlanes).Workers = 0 ∧
    (parseFlags parsedZeroControlPlanes).Name = "kind" ∧
    (parseFlags parsedZeroControlPlanes).APIVersion = "kind.x-k8s.io/v1alpha4" := by
  obtain ⟨_, _, hcp, hw, ⟨hname, _, hapi, _⟩, _⟩ :=
    parseFlags_normalises parsedZeroControlPlanes (fun _ => .ok "")
  exact ⟨hcp, hw, hname, hapi⟩

/-! ## C18: negative workers within the capacity -/

/-- C18 (as amended): for every configuration with controlPlanes ≥ 1 whose 104-byte
descriptors do not exceed `maxAlloc` (104 * controlPlanes ≤ `maxAlloc`, so that the
allocation of the node list passes the check of `make` with and without the workers) and a
negative workers such that controlPlanes + workers ≥ 0, buildNodes returns a list, the same
list as for the configuration with workers set to 0: exactly controlPlanes descriptors, all
of role "control-plane", none of role "worker". -/
theorem buildNodes_negative_workers (cfg : Config) (hcp : 1 ≤ cfg.ControlPlanes)
    (hfit : nodeSize * cfg.ControlPlanes ≤ maxAlloc) (hw : cfg.Workers < 0)
    (hsum : 0 ≤ cfg.ControlPlanes + cfg.Workers) :
    ∃ nodes, buildNodes cfg = .ok nodes ∧
      buildNodes { cfg with Workers := 0 } = .ok nodes ∧
      (nodes.length : Int) = cfg.ControlPlanes ∧
      ∀ (i : Nat) (node : Node), nodes[i]? = some node →
        node.Role = "control-plane" ∧ node.Role ≠ "worker" := by
  have hfit' : 104 * cfg.ControlPlanes ≤ 2 ^ 48 := hfit
  have hcap : makesliceOK nodeSize (nodesCap cfg) := by
    have hfitw : nodeSize * (cfg.ControlPlanes + cfg.Workers) ≤ maxAlloc := by
      show 104 * (cfg.ControlPlanes + cfg.Workers) ≤ 2 ^ 48
      omega
    rw [nodesCap_of_fit cfg hsum hfitw]
    exact ⟨hsum, hfitw⟩
  have hcap0 : makesliceOK nodeSize (nodesCap { cfg with Workers := 0 }) := by
    have hfit0 : nodeSize * (({ cfg with Workers := 0 } : Config).ControlPlanes +
        ({ cfg with Workers := 0 } : Config).Workers) ≤ maxAlloc := by
      show 104 * (cfg.ControlPlanes + 0) ≤ 2 ^ 48
      omega
    rw [nodesCap_of_fit _ (by show 0 ≤ cfg.ControlPlanes + 0; omega) hfit0]
    exact ⟨by show 0 ≤ cfg.ControlPlanes + 0; omega, hfit0⟩
  have hwn : cfg.Workers.toNat = 0 := by omega
  have h : buildNodes cfg = .ok ((List.range cfg.ControlPlanes.toNat).map
      (fun (i : Nat) => createControlPlaneNode cfg (Int.ofNat i))) := by
    rw [buildNodes_eq, if_pos hcap, hwn]
    simp
  have h0 : buildNodes { cfg with Workers := 0 } = .ok ((List.range cfg.ControlPlanes.toNat).map
      (fun (i : Nat) => createControlPlaneNode cfg (Int.ofNat i))) := by
    rw [buildNodes_eq, if_pos hcap0]
    simp
    intro a _
    rfl
  refine ⟨_, h, h0, by simp; omega, fun i node hnode => ?_⟩
  have hrole : node.Role = "control-plane" := by
    rcases buildNodes_getElem? cfg _ h i node hnode with ⟨_, hn⟩ | ⟨hge, _⟩
    · rw [hn]; exact createControlPlaneNode_Role cfg _
    · have hlt : i < cfg.ControlPlanes.toNat := by
        have := (List.getElem?_eq_some_iff.mp hnode).1
        simpa using this
      omega
  exact ⟨hrole, by rw [hrole]; decide⟩

/-- C18, at controlPlanes = 3 and workers = -2: buildNodes returns three control planes,
as it does for workers = 0. -/
theorem buildNodes_negative_workers_witness :
    ∃ nodes, buildNodes cfgNegativeWorkersInCap = .ok nodes ∧
      buildNodes { cfgNegativeWorkersInCap with Workers := 0 } = .ok nodes ∧
      (nodes.length : Int) = 3 ∧
      ∀ (i : Nat) (node : Node), nodes[i]? = some node →
        node.Role = "control-plane" ∧ node.Role ≠ "worker" :=
  buildNodes_negative_workers cfgNegativeWorkersInCap (by decide) (by decide) (by decide)
    (by decide)

/-- C18 fails as stated: with controlPlanes = 2^62 (a value of Go's `int`) and workers = -1,
so that controlPlanes + workers ≥ 0, the capacity 2^62 - 1 is not negative but its
descriptors exceed `maxAlloc`: the allocation of the node list panics and buildNodes
returns no list. -/
theorem buildNodes_negative_workers_cap_too_large :
    1 ≤ cfgHugeControlPlanes.ControlPlanes ∧ cfgHugeControlPlanes.ControlPlanes < 2 ^ 63 ∧
    cfgHugeControlPlanes.Workers < 0 ∧
    0 ≤ cfgHugeControlPlanes.ControlPlanes + cfgHugeControlPlanes.Workers ∧
    nodesCap cfgHugeControlPlanes = 4611686018427387903 ∧
    buildNodes cfgHugeControlPlanes = .error .makesliceCapOutOfRange :=
  ⟨by decide, by decide, by decide, by decide, by decide,
    (buildNodes_error_iff cfgHugeControlPlanes).mpr (by decide)⟩

/-! ## C19: port numbers are not range-checked -/

/-- C19: PortMappings.Set performs no range check on port numbers: for the flag value
"-1:70000" it succeeds and appends the mapping with hostPort -1, which is negative, and
containerPort 70000, which exceeds 65535; and buildNodes copies these two values
unchanged into the port mappings of descriptor 0. -/
theorem portMappings_not_range_checked :
    PortMappings.Set [] "-1:70000" = ([{ HostPort := -1, ContainerPort := 70000 }], none) ∧
    cfgUncheckedPorts.Ports = [{ HostPort := -1, ContainerPort := 70000 }] ∧
    ((-1 : Int) < 0 ∧ (65535 : Int) < 70000) ∧
    ∃ nodes node, buildNodes cfgUncheckedPorts = .ok nodes ∧ nodes[0]? = some node ∧
      node.ExtraPortMappings = [ExtraPortMapping.mk 70000 (-1) "TCP"] := by
  refine ⟨by decide, by decide, ⟨by decide, by decide⟩, ?_⟩
  obtain ⟨nodes, h⟩ := (buildNodes_ok_iff cfgUncheckedPorts).mpr (by decide)
  refine ⟨nodes, _, h, buildNodes_getElem?_zero cfgUncheckedPorts (by decide) nodes h, ?_⟩
  rw [createControlPlaneNode_ExtraPortMappings, if_pos rfl]
  decide

/-! ### The text of the manifest -/

theorem stringsContains_trans (s t u : String) (hst : stringsContains s t)
    (htu : stringsContains t u) : stringsContains s u :=
  List.IsInfix.trans htu hst

theorem unlines_contains_of_mem (lines : List String) (line : String) (h : line ∈ lines) :
    stringsContains (unlines lines) line := by
  obtain ⟨before, after, rfl⟩ := List.append_of_mem h
  refine ⟨before.flatMap (fun l => l.data ++ ['\n']),
    '\n' :: after.flatMap (fun l => l.data ++ ['\n']), ?_⟩
  simp [unlines, List.flatMap_append, List.flatMap_cons]

theorem docFieldLines_subset_manifestLines (cluster : ClusterConfig)
    (field : String × YamlDocValue) (hfield : field ∈ encodeClusterConfig cluster)
    (line : String) (hline : line ∈ docFieldLines field) : line ∈ manifestLines cluster := by
  unfold manifestLines
  exact List.mem_flatMap.mpr ⟨field, hfield, hline⟩

theorem containerdConfigPatches_mem_encode (cluster : ClusterConfig)
    (h : cluster.ContainerdConfigPatches ≠ []) :
    ("containerdConfigPatches", YamlDocValue.strings cluster.ContainerdConfigPatches) ∈
      encodeClusterConfig cluster := by
  simp [encodeClusterConfig, h]

/-- What buildKindYAML returns with the serializer of the specification as its encoder. -/
theorem buildKindYAML_yamlMarshal (cfg : Config) (hcp : 1 ≤ cfg.ControlPlanes)
    (nodes : List Node) (h : buildNodes cfg = .ok nodes) :
    buildKindYAML yamlMarshal cfg =
      .ok (unlines (manifestLines
        { Kind := "Cluster", APIVersion := cfg.APIVersion, Name := cfg.Name, Nodes := nodes,
          ContainerdConfigPatches :=
            if cfg.WithLocalRegistry then [localRegistryPatch] else [] }), none) := by
  rw [buildKindYAML_of_buildNodes_ok yamlMarshal cfg hcp nodes h]
  rfl

/-! ## C11: the manifest of a cluster with the local registry -/

/-- C11 (as amended): for every configuration with controlPlanes ≥ 1 and withLocalRegistry
= true for which the allocation `make([]Node, 0, controlPlanes+workers)` of the node list
does not panic (the capacity, as a Go `int`, is not negative and its 104-byte descriptors
do not exceed `maxAlloc`),
buildKindYAML, with the serializer of the specification as its encoder, succeeds, and the
manifest text it returns has the top-level key containerdConfigPatches (the line
`containerdConfigPatches:` of the manifest, the key of the sequence [localRegistryPatch])
and contains the text kind-registry:5000. -/
theorem buildKindYAML_local_registry_text (cfg : Config) (hcp : 1 ≤ cfg.ControlPlanes)
    (hreg : cfg.WithLocalRegistry = true) (hmake : makesliceOK nodeSize (nodesCap cfg)) :
    ∃ text, buildKindYAML yamlMarshal cfg = .ok (text, none) ∧
      (∃ cluster : ClusterConfig, text = unlines (manifestLines cluster) ∧
        ("containerdConfigPatches", YamlDocValue.strings [localRegistryPatch]) ∈
          encodeClusterConfig cluster ∧
        "containerdConfigPatches:" ∈ manifestLines cluster) ∧
      stringsContains text "containerdConfigPatches" ∧
      stringsContains text "kind-registry:5000" := by
  obtain ⟨nodes, hn⟩ := (buildNodes_ok_iff cfg).mpr hmake
  have hrun := buildKindYAML_yamlMarshal cfg hcp nodes hn
  rw [hreg, if_pos rfl] at hrun
  have hfield : ("containerdConfigPatches", YamlDocValue.strings [localRegistryPatch]) ∈
      encodeClusterConfig
        { Kind := "Cluster", APIVersion := cfg.APIVersion, Name := cfg.Name, Nodes := nodes,
          ContainerdConfigPatches := [localRegistryPatch] } :=
    containerdConfigPatches_mem_encode _ (by simp)
  have hkey := docFieldLines_subset_manifestLines _ _ hfield "containerdConfigPatches:"
    (by decide)
  have hline := docFieldLines_subset_manifestLines _ _ hfield
    "        endpoint = [\"http://kind-registry:5000\"]" (by decide)
  refine ⟨_, hrun, ⟨_, rfl, hfield, hkey⟩, ?_, ?_⟩
  · exact stringsContains_trans _ _ _ (unlines_contains_of_mem _ _ hkey)
      ⟨[], ":".data, by decide⟩
  · exact stringsContains_trans _ _ _ (unlines_contains_of_mem _ _ hline)
      ⟨"        endpoint = [\"http://".data, "\"]".data, by decide⟩

set_option maxRecDepth 100000

/-- C11, at the configuration of TestBuildKindYAML_LocalRegistry (apiVersion
"kind.x-k8s.io/v1alpha4", one control plane, withLocalRegistry): buildKindYAML succeeds with
the manifest below, which contains containerdConfigPatches and kind-registry:5000. -/
theorem buildKindYAML_local_registry_text_witness :
    ∃ text, buildKindYAML yamlMarshal cfgLocalRegistry = .ok (text, none) ∧
      text = "kind: Cluster\napiVersion: kind.x-k8s.io/v1alpha4\nnodes:\n    - role: control-plane\ncontainerdConfigPatches:\n    - |-\n      [plugins.\"io.containerd.grpc.v1.cri\".registry.mirrors.\"localhost:5001\"]\n        endpoint = [\"http://kind-registry:5000\"]\n" ∧
      stringsContains text "containerdConfigPatches" ∧
      stringsContains text "kind-registry:5000" := by
  obtain ⟨text, hrun, _, hkey, hsub⟩ :=
    buildKindYAML_local_registry_text cfgLocalRegistry (by decide) rfl (by decide)
  have hn : buildNodes cfgLocalRegistry = .ok [{ Role := "control-plane" }] := by
    rw [buildNodes_eq, if_pos (by decide)]
    rfl
  have htext : unlines (manifestLines (ClusterConfig.mk "Cluster" "kind.x-k8s.io/v1alpha4" ""
      [{ Role := "control-plane" }] [localRegistryPatch])) =
      "kind: Cluster\napiVersion: kind.x-k8s.io/v1alpha4\nnodes:\n    - role: control-plane\ncontainerdConfigPatches:\n    - |-\n      [plugins.\"io.containerd.grpc.v1.cri\".registry.mirrors.\"localhost:5001\"]\n        endpoint = [\"http://kind-registry:5000\"]\n" := by
    decide
  have hrun2 := buildKindYAML_yamlMarshal cfgLocalRegistry (by decide) _ hn
  rw [hrun] at hrun2
  have heq : text = _ := congrArg Prod.fst (Except.ok.inj hrun2)
  exact ⟨text, hrun, heq.trans htext, hkey, hsub⟩

/-- C11 fails as stated: for the configuration of TestBuildKindYAML_LocalRegistry with
workers = -2 (controlPlanes = 1 ≥ 1, withLocalRegistry = true) buildKindYAML does not
succeed, whatever the encoder: the allocation in buildNodes panics. -/
theorem buildKindYAML_local_registry_negative_workers :
    1 ≤ cfgLocalRegistryNegativeWorkers.ControlPlanes ∧
    cfgLocalRegistryNegativeWorkers.WithLocalRegistry = true ∧
    buildKindYAML yamlMarshal cfgLocalRegistryNegativeWorkers =
      .error .makesliceCapOutOfRange ∧
    ∀ marshal,
      buildKindYAML marshal cfgLocalRegistryNegativeWorkers = .error .makesliceCapOutOfRange := by
  have hn : buildNodes cfgLocalRegistryNegativeWorkers = .error .makesliceCapOutOfRange :=
    (buildNodes_error_iff cfgLocalRegistryNegativeWorkers).mpr (by decide)
  exact ⟨by decide, rfl,
    buildKindYAML_of_buildNodes_error _ cfgLocalRegistryNegativeWorkers (by decide) _ hn,
    fun marshal =>
      buildKindYAML_of_buildNodes_error marshal cfgLocalRegistryNegativeWorkers (by decide) _ hn⟩

/-! ### The key lines of the manifest -/

theorem stringLines_shape (head s : String) :
    ∃ l0 rest, stringLines head s = l0 :: rest ∧ head.data <+: l0.data ∧
      ∀ l ∈ rest, "  ".data <+: l.data := by
  by_cases hs : '\n' ∈ s.data
  · refine ⟨head ++ " |-", (stringsSplit s '\n').map (fun line => "  " ++ line),
      by simp only [stringLines, hs, if_true], ?_, ?_⟩
    · simp [String.data_append]
    · intro l hl
      obtain ⟨line, _, rfl⟩ := List.mem_map.mp hl
      simp [String.data_append]
  · refine ⟨head ++ " " ++ (if s = "" then "\"\"" else s), [],
      by simp only [stringLines, hs, if_false], ?_, ?_⟩
    · simp [String.data_append]
    · intro l hl
      cases hl

theorem scalarLines_shape (head : String) (v : YamlScalar) :
    ∃ l0 rest, scalarLines head v = l0 :: rest ∧ head.data <+: l0.data ∧
      ∀ l ∈ rest, "  ".data <+: l.data := by
  cases v with
  | str s => exact stringLines_shape head s
  | int n =>
    refine ⟨_, [], rfl, ?_, ?_⟩
    · simp [String.data_append]
    · intro l hl
      cases hl

theorem nodeFieldLines_shape (field : String × YamlNodeValue) :
    ∃ l0 rest, nodeFieldLines field = l0 :: rest ∧ (field.1 ++ ":").data <+: l0.data ∧
      ∀ l ∈ rest, "  ".data <+: l.data := by
  obtain ⟨key, value⟩ := field
  cases value with
  | scalar v => exact scalarLines_shape (key ++ ":") v
  | strings items =>
    refine ⟨_, _, rfl, List.prefix_refl _, ?_⟩
    intro l hl
    obtain ⟨line, _, rfl⟩ := List.mem_map.mp hl
    simp [String.data_append]
  | mappings items =>
    refine ⟨_, _, rfl, List.prefix_refl _, ?_⟩
    intro l hl
    obtain ⟨line, _, rfl⟩ := List.mem_map.mp hl
    simp [String.data_append]

theorem docFieldLines_shape (field : String × YamlDocValue) :
    ∃ l0 rest, docFieldLines field = l0 :: rest ∧ (field.1 ++ ":").data <+: l0.data ∧
      ∀ l ∈ rest, "  ".data <+: l.data := by
  obtain ⟨key, value⟩ := field
  cases value with
  | scalar v => exact scalarLines_shape (key ++ ":") v
  | strings items =>
    refine ⟨_, _, rfl, List.prefix_refl _, ?_⟩
    intro l hl
    obtain ⟨line, _, rfl⟩ := List.mem_map.mp hl
    simp [String.data_append]
  | nodes items =>
    by_cases hitems : items = []
    · refine ⟨key ++ ": []", [], by simp [docFieldLines, hitems], ?_, ?_⟩
      · simp [String.data_append]
      · intro l hl
        cases hl
    · refine ⟨key ++ ":",
        (items.flatMap (fun n => sequenceItem (n.flatMap nodeFieldLines))).map
          (fun l => "    " ++ l),
        by simp only [docFieldLines, hitems, if_false], List.prefix_refl _, ?_⟩
      intro l hl
      obtain ⟨line, _, rfl⟩ := List.mem_map.mp hl
      simp [String.data_append]

/-- Among the lines written for a list of fields, a line starts with the key `t` and its
colon exactly when `t` is the key of one of the fields, provided the other keys and the
indentation of the continuation lines cannot be mistaken for `t`. -/
theorem keyLine_iff {β : Type} (f : String × β → List String)
    (hshape : ∀ field, ∃ l0 rest, f field = l0 :: rest ∧ (field.1 ++ ":").data <+: l0.data ∧
      ∀ l ∈ rest, "  ".data <+: l.data)
    (fields : List (String × β)) (t : String)
    (hsp : ¬ ("  ".data <+: (t ++ ":").data) ∧ ¬ ((t ++ ":").data <+: "  ".data))
    (hsep : ∀ field ∈ fields, field.1 ≠ t →
      ¬ ((field.1 ++ ":").data <+: (t ++ ":").data) ∧
      ¬ ((t ++ ":").data <+: (field.1 ++ ":").data)) :
    (∃ l ∈ fields.flatMap f, (t ++ ":").data <+: l.data) ↔ t ∈ fields.map Prod.fst := by
  constructor
  · rintro ⟨l, hl, hpre⟩
    obtain ⟨field, hfield, hlf⟩ := List.mem_flatMap.mp hl
    obtain ⟨l0, rest, hf, hl0, hrest⟩ := hshape field
    rw [hf] at hlf
    rcases List.mem_cons.mp hlf with rfl | hmem
    · by_cases hkey : field.1 = t
      · exact List.mem_map.mpr ⟨field, hfield, hkey⟩
      · rcases List.prefix_or_prefix_of_prefix hl0 hpre with h | h
        · exact absurd h (hsep field hfield hkey).1
        · exact absurd h (hsep field hfield hkey).2
    · rcases List.prefix_or_prefix_of_prefix (hrest l hmem) hpre with h | h
      · exact absurd h hsp.1
      · exact absurd h hsp.2
  · intro ht
    obtain ⟨field, hfield, rfl⟩ := List.mem_map.mp ht
    obtain ⟨l0, rest, hf, hl0, _⟩ := hshape field
    exact ⟨l0, List.mem_flatMap.mpr ⟨field, hfield, by rw [hf]; exact List.mem_cons_self _ _⟩, hl0⟩

theorem encodeNode_key_mem (node : Node) (field : String × YamlNodeValue)
    (h : field ∈ encodeNode node) :
    field.1 ∈ ["role", "image", "extraPortMappings", "extraMounts", "kubeadmConfigPatches"] := by
  unfold encodeNode at h
  simp only [List.mem_append, List.mem_singleton] at h
  rcases h with (((h | h) | h) | h) | h
  · rw [h]; simp
  all_goals
    split_ifs at h
    · cases h
    · rw [List.mem_singleton.mp h]; simp

theorem encodeClusterConfig_key_mem (cluster : ClusterConfig) (field : String × YamlDocValue)
    (h : field ∈ encodeClusterConfig cluster) :
    field.1 ∈ ["kind", "apiVersion", "name", "nodes", "containerdConfigPatches"] := by
  unfold encodeClusterConfig at h
  simp only [List.mem_append, List.mem_singleton, List.mem_cons, List.mem_nil_iff, or_false] at h
  rcases h with (((h | h) | h) | h) | h
  · rw [h]; simp
  · rw [h]; simp
  · split_ifs at h
    · cases h
    · rw [List.mem_singleton.mp h]; simp
  · rw [h]; simp
  · split_ifs at h
    · cases h
    · rw [List.mem_singleton.mp h]; simp

theorem keys_not_mistaken :
    ∀ k ∈ ["role", "image", "extraPortMappings", "extraMounts", "kubeadmConfigPatches",
        "kind", "apiVersion", "name", "nodes", "containerdConfigPatches", " "],
      ∀ t ∈ ["image", "extraPortMappings", "extraMounts", "kubeadmConfigPatches",
        "containerdConfigPatches"],
      k ≠ t →
        ¬ ((k ++ ":").data <+: (t ++ ":").data) ∧ ¬ ((t ++ ":").data <+: (k ++ ":").data) := by
  decide

theorem indentation_not_mistaken :
    ∀ t ∈ ["image", "extraPortMappings", "extraMounts", "kubeadmConfigPatches",
        "containerdConfigPatches"],
      ¬ ("  ".data <+: (t ++ ":").data) ∧ ¬ ((t ++ ":").data <+: "  ".data) := by
  decide

/-- Among the lines of the fields of a node, the line of an optional key is there exactly
when the key is a key of the node. -/
theorem nodeFieldLines_keyLine_iff (node : Node) (t : String)
    (ht : t ∈ ["image", "extraPortMappings", "extraMounts", "kubeadmConfigPatches"]) :
    (∃ l ∈ (encodeNode node).flatMap nodeFieldLines, (t ++ ":").data <+: l.data) ↔
      t ∈ (encodeNode node).map Prod.fst := by
  have ht' : t ∈ ["image", "extraPortMappings", "extraMounts", "kubeadmConfigPatches",
      "containerdConfigPatches"] := by
    simp only [List.mem_cons, List.mem_singleton, List.mem_nil_iff, or_false] at ht ⊢
    tauto
  refine keyLine_iff nodeFieldLines nodeFieldLines_shape _ t (indentation_not_mistaken t ht') ?_
  intro field hfield hne
  have hk := encodeNode_key_mem node field hfield
  refine keys_not_mistaken field.1 ?_ t ht' hne
  simp only [List.mem_cons, List.mem_singleton, List.mem_nil_iff, or_false] at hk ⊢
  tauto

/-- The lines of a node in the manifest: the line of an optional key, at the indentation of
the keys of a node, is there exactly when the key is a key of the node. -/
theorem nodeManifestLines_keyLine_iff (node : Node) (t : String)
    (ht : t ∈ ["image", "extraPortMappings", "extraMounts", "kubeadmConfigPatches"]) :
    (∃ line ∈ nodeManifestLines node, lineHasKey "      " t line) ↔
      t ∈ (encodeNode node).map Prod.fst := by
  rw [← nodeFieldLines_keyLine_iff node t ht]
  have ht' : t ∈ ["image", "extraPortMappings", "extraMounts", "kubeadmConfigPatches",
      "containerdConfigPatches"] := by
    simp only [List.mem_cons, List.mem_singleton, List.mem_nil_iff, or_false] at ht ⊢
    tauto
  have hne : "role" ≠ t := by
    rintro rfl
    revert ht
    decide
  -- the first line is the line of the key role
  obtain ⟨l0, rest, hf, hl0, _⟩ := nodeFieldLines_shape ("role", .scalar (.str node.Role))
  have hL : ∃ tail, (encodeNode node).flatMap nodeFieldLines = l0 :: tail := by
    unfold encodeNode
    simp only [List.flatMap_append, List.flatMap_cons, List.flatMap_nil, List.append_nil, hf,
      List.cons_append, List.append_assoc]
    exact ⟨_, rfl⟩
  obtain ⟨tail, hL⟩ := hL
  have h0 : ¬ (t ++ ":").data <+: l0.data := by
    intro hpre
    have hsep := keys_not_mistaken "role" (by decide) t ht' hne
    rcases List.prefix_or_prefix_of_prefix hl0 hpre with h | h
    · exact hsep.1 h
    · exact hsep.2 h
  have hsix : "      ".data = [' ', ' ', ' ', ' ', ' ', ' '] := rfl
  have hfour : "    ".data = [' ', ' ', ' ', ' '] := rfl
  have htwo : "  ".data = [' ', ' '] := rfl
  have hdash : "- ".data = ['-', ' '] := rfl
  unfold nodeManifestLines
  rw [hL]
  constructor
  · rintro ⟨line, hline, hkey⟩
    obtain ⟨x, hx, rfl⟩ := List.mem_map.mp hline
    rcases List.mem_cons.mp hx with rfl | hx
    · exfalso
      unfold lineHasKey at hkey
      simp [String.data_append, hsix, hfour, hdash] at hkey
    · obtain ⟨l, hl, rfl⟩ := List.mem_map.mp hx
      refine ⟨l, List.mem_cons_of_mem _ hl, ?_⟩
      unfold lineHasKey at hkey
      simpa [String.data_append, hsix, hfour, htwo] using hkey
  · rintro ⟨l, hl, hpre⟩
    rcases List.mem_cons.mp hl with rfl | hl
    · exact absurd hpre h0
    · refine ⟨"    " ++ ("  " ++ l), ?_, ?_⟩
      · exact List.mem_map.mpr ⟨"  " ++ l,
          List.mem_cons_of_mem _ (List.mem_map.mpr ⟨l, hl, rfl⟩), rfl⟩
      · unfold lineHasKey
        simpa [String.data_append, hsix, hfour, htwo] using hpre

/-- The line of the key containerdConfigPatches, at the left margin, is a line of the
manifest exactly when the key is a key of the document. -/
theorem manifestLines_containerd_keyLine_iff (cluster : ClusterConfig) :
    (∃ line ∈ manifestLines cluster, lineHasKey "" "containerdConfigPatches" line) ↔
      cluster.ContainerdConfigPatches ≠ [] := by
  have hkeys : "containerdConfigPatches" ∈ (encodeClusterConfig cluster).map Prod.fst ↔
      cluster.ContainerdConfigPatches ≠ [] := by
    unfold encodeClusterConfig
    split_ifs <;> simp_all
  rw [← hkeys]
  have hiff := keyLine_iff docFieldLines docFieldLines_shape (encodeClusterConfig cluster)
    "containerdConfigPatches" (indentation_not_mistaken _ (by decide)) (by
      intro field hfield hne
      have hk := encodeClusterConfig_key_mem cluster field hfield
      refine keys_not_mistaken field.1 ?_ _ (by decide) hne
      simp only [List.mem_cons, List.mem_singleton, List.mem_nil_iff, or_false] at hk ⊢
      tauto)
  rw [← hiff]
  unfold manifestLines lineHasKey
  simp [String.data_append]

/-- The layout of the manifest of a document with at least one node: the lines of kind, of
apiVersion and of a name that is not empty, the line of the key nodes, the lines of the
nodes in their order, and the lines of containerdConfigPatches when there are patches. -/
theorem manifestLines_layout (cluster : ClusterConfig) (hnodes : cluster.Nodes ≠ []) :
    manifestLines cluster =
      stringLines "kind:" cluster.Kind ++ stringLines "apiVersion:" cluster.APIVersion ++
      (if cluster.Name = "" then [] else stringLines "name:" cluster.Name) ++
      "nodes:" :: cluster.Nodes.flatMap nodeManifestLines ++
      (if cluster.ContainerdConfigPatches = [] then []
        else "containerdConfigPatches:" ::
          (cluster.ContainerdConfigPatches.flatMap (stringLines "-")).map
            (fun l => "    " ++ l)) := by
  have hitems : ¬ cluster.Nodes.map encodeNode = [] := by simpa using hnodes
  have hlines : docFieldLines ("nodes", YamlDocValue.nodes (cluster.Nodes.map encodeNode)) =
      "nodes:" :: cluster.Nodes.flatMap nodeManifestLines := by
    simp only [docFieldLines, hitems, if_false]
    congr 1
    simp only [List.map_flatMap, List.flatMap_map]
    rfl
  unfold manifestLines encodeClusterConfig
  simp only [List.flatMap_append, List.flatMap_cons, List.flatMap_nil, List.append_nil, hlines]
  split_ifs <;> simp [docFieldLines, scalarLines]

/-! ### The lines of the manifest are the lines of its text -/

theorem digitChar_ne_newline : ∀ m < 10, Nat.digitChar m ≠ '\n' := by
  decide

theorem toDigitsCore_no_newline (fuel n : Nat) (ds : List Char) (h : '\n' ∉ ds) :
    '\n' ∉ Nat.toDigitsCore 10 fuel n ds := by
  induction fuel generalizing n ds with
  | zero => simpa [Nat.toDigitsCore] using h
  | succ fuel ih =>
    have hd : '\n' ∉ Nat.digitChar (n % 10) :: ds := by
      intro hmem
      rcases List.mem_cons.mp hmem with h1 | h1
      · exact digitChar_ne_newline _ (Nat.mod_lt _ (by decide)) h1.symm
      · exact h h1
    rw [Nat.toDigitsCore]
    split_ifs
    · exact hd
    · exact ih _ _ hd

theorem nat_toString_no_newline (n : Nat) : '\n' ∉ (toString n).data := by
  show '\n' ∉ (Nat.repr n).data
  unfold Nat.repr Nat.toDigits
  simpa [List.asString] using toDigitsCore_no_newline _ _ [] (List.not_mem_nil _)

theorem int_toString_no_newline (n : Int) : '\n' ∉ (toString n).data := by
  cases n with
  | ofNat m => exact nat_toString_no_newline m
  | negSucc m =>
    show '\n' ∉ ("-" ++ toString (Nat.succ m)).data
    rw [String.data_append]
    intro hmem
    rcases List.mem_append.mp hmem with h | h
    · revert h; decide
    · exact nat_toString_no_newline _ h

theorem no_newline_append (a b : String) :
    '\n' ∉ (a ++ b).data ↔ '\n' ∉ a.data ∧ '\n' ∉ b.data := by
  simp [String.data_append, not_or]

theorem splitChars_pieces (sep : Char) (l : List Char) : ∀ p ∈ splitChars sep l, sep ∉ p := by
  induction l with
  | nil =>
    intro p hp
    simp [splitChars] at hp
    simp [hp]
  | cons c cs ih =>
    intro p hp
    obtain ⟨h, t, hrest⟩ := List.exists_cons_of_ne_nil (splitChars_ne_nil sep cs)
    rw [hrest] at ih
    by_cases hc : c = sep
    · simp only [splitChars, hc, hrest, if_true] at hp
      rcases List.mem_cons.mp hp with rfl | hp
      · exact List.not_mem_nil _
      · exact ih p hp
    · simp only [splitChars, hc, hrest, if_false, List.headD_cons, List.tail_cons] at hp
      rcases List.mem_cons.mp hp with rfl | hp
      · intro hmem
        rcases List.mem_cons.mp hmem with h1 | h1
        · exact hc h1.symm
        · exact ih h (List.mem_cons_self _ _) h1
      · exact ih p (List.mem_cons_of_mem _ hp)

theorem stringLines_no_newline (head s : String) (hh : '\n' ∉ head.data) :
    ∀ l ∈ stringLines head s, '\n' ∉ l.data := by
  intro l hl
  by_cases hs : '\n' ∈ s.data
  · simp only [stringLines, hs, if_true] at hl
    rcases List.mem_cons.mp hl with rfl | hl
    · exact (no_newline_append _ _).mpr ⟨hh, by decide⟩
    · obtain ⟨line, hline, rfl⟩ := List.mem_map.mp hl
      refine (no_newline_append _ _).mpr ⟨by decide, ?_⟩
      obtain ⟨piece, hpiece, rfl⟩ := List.mem_map.mp hline
      exact splitChars_pieces '\n' s.data piece hpiece
  · simp only [stringLines, hs, if_false, List.mem_singleton] at hl
    rw [hl]
    refine (no_newline_append _ _).mpr ⟨(no_newline_append _ _).mpr ⟨hh, by decide⟩, ?_⟩
    split_ifs
    · decide
    · exact hs

theorem scalarLines_no_newline (head : String) (v : YamlScalar) (hh : '\n' ∉ head.data) :
    ∀ l ∈ scalarLines head v, '\n' ∉ l.data := by
  cases v with
  | str s => exact stringLines_no_newline head s hh
  | int n =>
    intro l hl
    simp only [scalarLines, List.mem_singleton] at hl
    rw [hl]
    exact (no_newline_append _ _).mpr
      ⟨(no_newline_append _ _).mpr ⟨hh, by decide⟩, int_toString_no_newline n⟩

theorem sequenceItem_no_newline (lines : List String) (h : ∀ l ∈ lines, '\n' ∉ l.data) :
    ∀ l ∈ sequenceItem lines, '\n' ∉ l.data := by
  intro l hl
  cases lines with
  | nil =>
    simp only [sequenceItem, List.mem_singleton] at hl
    rw [hl]; decide
  | cons l0 rest =>
    simp only [sequenceItem] at hl
    rcases List.mem_cons.mp hl with rfl | hl
    · exact (no_newline_append _ _).mpr ⟨by decide, h l0 (List.mem_cons_self _ _)⟩
    · obtain ⟨x, hx, rfl⟩ := List.mem_map.mp hl
      exact (no_newline_append _ _).mpr ⟨by decide, h x (List.mem_cons_of_mem _ hx)⟩

theorem indented_no_newline (indent : String) (hi : '\n' ∉ indent.data) (lines : List String)
    (h : ∀ l ∈ lines, '\n' ∉ l.data) : ∀ l ∈ lines.map (fun l => indent ++ l), '\n' ∉ l.data := by
  intro l hl
  obtain ⟨x, hx, rfl⟩ := List.mem_map.mp hl
  exact (no_newline_append _ _).mpr ⟨hi, h x hx⟩

theorem stringItems_no_newline (items : List String) :
    ∀ l ∈ items.flatMap (stringLines "-"), '\n' ∉ l.data := by
  intro l hl
  obtain ⟨s, _, hs⟩ := List.mem_flatMap.mp hl
  exact stringLines_no_newline "-" s (by decide) l hs

theorem scalarMapping_no_newline (m : List (String × YamlScalar))
    (hkeys : ∀ kv ∈ m, '\n' ∉ kv.1.data) :
    ∀ l ∈ sequenceItem (m.flatMap (fun kv => scalarLines (kv.1 ++ ":") kv.2)),
      '\n' ∉ l.data := by
  apply sequenceItem_no_newline
  intro l hl
  obtain ⟨kv, hkv, hl⟩ := List.mem_flatMap.mp hl
  exact scalarLines_no_newline _ _ ((no_newline_append _ _).mpr ⟨hkeys kv hkv, by decide⟩) l hl

theorem encodeExtraPortMapping_keys (pm : ExtraPortMapping) :
    ∀ kv ∈ encodeExtraPortMapping pm, '\n' ∉ kv.1.data := by
  intro kv hkv
  unfold encodeExtraPortMapping at hkv
  split_ifs at hkv
  · simp at hkv
    rcases hkv with h | h <;> (rw [h]; dsimp only; decide)
  · simp at hkv
    rcases hkv with h | h | h <;> (rw [h]; dsimp only; decide)

theorem encodeExtraMount_keys (em : ExtraMount) :
    ∀ kv ∈ encodeExtraMount em, '\n' ∉ kv.1.data := by
  intro kv hkv
  unfold encodeExtraMount at hkv
  simp at hkv
  rcases hkv with h | h <;> (rw [h]; dsimp only; decide)

theorem nodeFieldLines_no_newline (node : Node) :
    ∀ l ∈ (encodeNode node).flatMap nodeFieldLines, '\n' ∉ l.data := by
  intro l hl
  obtain ⟨field, hfield, hl⟩ := List.mem_flatMap.mp hl
  have hmaps : ∀ (key : String) (items : List (List (String × YamlScalar))),
      '\n' ∉ key.data → (∀ m ∈ items, ∀ kv ∈ m, '\n' ∉ kv.1.data) →
      ∀ l ∈ nodeFieldLines (key, YamlNodeValue.mappings items), '\n' ∉ l.data := by
    intro key items hkey hitems l hl
    simp only [nodeFieldLines] at hl
    rcases List.mem_cons.mp hl with rfl | hl
    · exact (no_newline_append _ _).mpr ⟨hkey, by decide⟩
    · refine indented_no_newline "  " (by decide) _ ?_ l hl
      intro x hx
      obtain ⟨m, hm, hx⟩ := List.mem_flatMap.mp hx
      exact scalarMapping_no_newline m (hitems m hm) x hx
  have hstrs : ∀ (key : String) (items : List String), '\n' ∉ key.data →
      ∀ l ∈ nodeFieldLines (key, YamlNodeValue.strings items), '\n' ∉ l.data := by
    intro key items hkey l hl
    simp only [nodeFieldLines] at hl
    rcases List.mem_cons.mp hl with rfl | hl
    · exact (no_newline_append _ _).mpr ⟨hkey, by decide⟩
    · exact indented_no_newline "  " (by decide) _ (stringItems_no_newline items) l hl
  have hscalar : ∀ (key : String) (v : YamlScalar), '\n' ∉ key.data →
      ∀ l ∈ nodeFieldLines (key, YamlNodeValue.scalar v), '\n' ∉ l.data := by
    intro key v hkey l hl
    exact scalarLines_no_newline _ v ((no_newline_append _ _).mpr ⟨hkey, by decide⟩) l hl
  unfold encodeNode at hfield
  simp only [List.mem_append, List.mem_singleton] at hfield
  rcases hfield with (((h | h) | h) | h) | h
  · rw [h] at hl
    exact hscalar _ _ (by decide) l hl
  · split_ifs at h
    · cases h
    · rw [List.mem_singleton.mp h] at hl
      exact hscalar _ _ (by decide) l hl
  · split_ifs at h
    · cases h
    · rw [List.mem_singleton.mp h] at hl
      refine hmaps _ _ (by decide) ?_ l hl
      intro m hm
      obtain ⟨pm, _, rfl⟩ := List.mem_map.mp hm
      exact encodeExtraPortMapping_keys pm
  · split_ifs at h
    · cases h
    · rw [List.mem_singleton.mp h] at hl
      refine hmaps _ _ (by decide) ?_ l hl
      intro m hm
      obtain ⟨em, _, rfl⟩ := List.mem_map.mp hm
      exact encodeExtraMount_keys em
  · split_ifs at h
    · cases h
    · rw [List.mem_singleton.mp h] at hl
      exact hstrs _ _ (by decide) l hl

theorem nodeManifestLines_no_newline (node : Node) :
    ∀ l ∈ nodeManifestLines node, '\n' ∉ l.data :=
  indented_no_newline "    " (by decide) _
    (sequenceItem_no_newline _ (nodeFieldLines_no_newline node))

theorem manifestLines_no_newline (cluster : ClusterConfig) :
    ∀ l ∈ manifestLines cluster, '\n' ∉ l.data := by
  intro l hl
  obtain ⟨field, hfield, hl⟩ := List.mem_flatMap.mp hl
  have hscalar : ∀ (key : String) (v : YamlScalar), '\n' ∉ key.data →
      ∀ l ∈ docFieldLines (key, YamlDocValue.scalar v), '\n' ∉ l.data := by
    intro key v hkey l hl
    exact scalarLines_no_newline _ v ((no_newline_append _ _).mpr ⟨hkey, by decide⟩) l hl
  unfold encodeClusterConfig at hfield
  simp only [List.mem_append, List.mem_singleton, List.mem_cons, List.mem_nil_iff,
    or_false] at hfield
  rcases hfield with (((h | h) | h) | h) | h
  · rw [h] at hl
    exact hscalar _ _ (by decide) l hl
  · rw [h] at hl
    exact hscalar _ _ (by decide) l hl
  · split_ifs at h
    · cases h
    · rw [List.mem_singleton.mp h] at hl
      exact hscalar _ _ (by decide) l hl
  · rw [h] at hl
    by_cases hitems : cluster.Nodes.map encodeNode = []
    · simp only [docFieldLines, hitems, if_true, List.mem_singleton] at hl
      rw [hl]; decide
    · simp only [docFieldLines, hitems, if_false] at hl
      rcases List.mem_cons.mp hl with rfl | hl
      · decide
      · refine indented_no_newline "    " (by decide) _ ?_ l hl
        intro x hx
        obtain ⟨m, hm, hx⟩ := List.mem_flatMap.mp hx
        obtain ⟨node, _, rfl⟩ := List.mem_map.mp hm
        exact sequenceItem_no_newline _ (nodeFieldLines_no_newline node) x hx
  · split_ifs at h
    · cases h
    · rw [List.mem_singleton.mp h] at hl
      simp only [docFieldLines] at hl
      rcases List.mem_cons.mp hl with rfl | hl
      · decide
      · exact indented_no_newline "    " (by decide) _ (stringItems_no_newline _) l hl

/-- A text made of lines without line feed splits at its line feeds into these lines,
followed by the empty piece after the last line feed. -/
theorem stringsSplit_unlines (lines : List String) (h : ∀ l ∈ lines, '\n' ∉ l.data) :
    stringsSplit (unlines lines) '\n' = lines ++ [""] := by
  unfold stringsSplit unlines
  induction lines with
  | nil => rfl
  | cons l ls ih =>
    have hl := h l (List.mem_cons_self _ _)
    have hls := ih (fun x hx => h x (List.mem_cons_of_mem _ hx))
    simp only [List.flatMap_cons, List.append_assoc, List.singleton_append]
    rw [splitChars_append_sep '\n' l.data _ hl, List.map_cons, hls]
    rfl

theorem encodeNode_keys (node : Node) :
    ("image" ∈ (encodeNode node).map Prod.fst ↔ node.Image ≠ "") ∧
    ("extraPortMappings" ∈ (encodeNode node).map Prod.fst ↔ node.ExtraPortMappings ≠ []) ∧
    ("extraMounts" ∈ (encodeNode node).map Prod.fst ↔ node.ExtraMounts ≠ []) ∧
    ("kubeadmConfigPatches" ∈ (encodeNode node).map Prod.fst ↔
      node.KubeadmConfigPatches ≠ []) := by
  unfold encodeNode
  refine ⟨?_, ?_, ?_, ?_⟩ <;> split_ifs <;> simp_all

/-! ## C15: empty optional fields are omitted -/

/-- C15: for every configuration with controlPlanes ≥ 1, the manifest that buildKindYAML
returns with the serializer of the specification omits every optional field that is empty:
among the lines of the text (its pieces between the line feeds), the lines of a node have
the line of the key image only when the node has an image, of extraPortMappings only when
it has port mappings, of extraMounts only when it has mounts, of kubeadmConfigPatches only
when it has patches, and the text has the line of the top-level key
containerdConfigPatches only when withLocalRegistry is true.  The lines of the nodes follow
one another in the text in the order of the list buildNodes returns, after the lines of
kind, of apiVersion, of a name that is not empty and the line of the key nodes, and before
the lines of containerdConfigPatches; the text has no other line.  When buildNodes panics,
so does buildKindYAML. -/
theorem buildKindYAML_omits_empty_fields (cfg : Config) (hcp : 1 ≤ cfg.ControlPlanes) :
    (∀ p, buildNodes cfg = .error p → buildKindYAML yamlMarshal cfg = .error p) ∧
    ∀ nodes, buildNodes cfg = .ok nodes →
      ∃ text lines, buildKindYAML yamlMarshal cfg = .ok (text, none) ∧
        stringsSplit text '\n' = lines ++ [""] ∧
        ((∃ line ∈ lines, lineHasKey "" "containerdConfigPatches" line) ↔
          cfg.WithLocalRegistry = true) ∧
        lines = stringLines "kind:" "Cluster" ++ stringLines "apiVersion:" cfg.APIVersion ++
          (if cfg.Name = "" then [] else stringLines "name:" cfg.Name) ++
          "nodes:" :: nodes.flatMap nodeManifestLines ++
          (if cfg.WithLocalRegistry = true then
            "containerdConfigPatches:" ::
              (stringLines "-" localRegistryPatch).map (fun l => "    " ++ l)
          else []) ∧
        ∀ (i : Nat) (node : Node), nodes[i]? = some node →
          ((∃ line ∈ nodeManifestLines node, lineHasKey "      " "image" line) ↔
            node.Image ≠ "") ∧
          ((∃ line ∈ nodeManifestLines node, lineHasKey "      " "extraPortMappings" line) ↔
            node.ExtraPortMappings ≠ []) ∧
          ((∃ line ∈ nodeManifestLines node, lineHasKey "      " "extraMounts" line) ↔
            node.ExtraMounts ≠ []) ∧
          ((∃ line ∈ nodeManifestLines node, lineHasKey "      " "kubeadmConfigPatches" line) ↔
            node.KubeadmConfigPatches ≠ []) := by
  refine ⟨fun p h => buildKindYAML_of_buildNodes_error yamlMarshal cfg hcp p h, fun nodes h => ?_⟩
  have hne : nodes ≠ [] := by
    have hlen := buildNodes_length cfg nodes h
    intro hnil
    rw [hnil] at hlen
    simp at hlen
    omega
  refine ⟨_, _, buildKindYAML_yamlMarshal cfg hcp nodes h,
    stringsSplit_unlines _ (manifestLines_no_newline _), ?_, ?_, ?_⟩
  · rw [manifestLines_containerd_keyLine_iff]
    cases cfg.WithLocalRegistry <;> simp
  · rw [manifestLines_layout _ hne]
    cases cfg.WithLocalRegistry <;> simp
  · intro i node _
    obtain ⟨h1, h2, h3, h4⟩ := encodeNode_keys node
    exact ⟨(nodeManifestLines_keyLine_iff node _ (by decide)).trans h1,
      (nodeManifestLines_keyLine_iff node _ (by decide)).trans h2,
      (nodeManifestLines_keyLine_iff node _ (by decide)).trans h3,
      (nodeManifestLines_keyLine_iff node _ (by decide)).trans h4⟩

/-- C15, at the configuration of TestBuildNodes_MinimalCluster (one control plane, nothing
else): the manifest is the four lines below; the lines of its node have no line of the
keys image, extraPortMappings, extraMounts and kubeadmConfigPatches, and the text has no
line of the key containerdConfigPatches. -/
theorem buildKindYAML_omits_empty_fields_witness :
    ∃ text node, buildKindYAML yamlMarshal cfgMinimal = .ok (text, none) ∧
      buildNodes cfgMinimal = .ok [node] ∧
      text = "kind: Cluster\napiVersion: \"\"\nnodes:\n    - role: control-plane\n" ∧
      nodeManifestLines node = ["    - role: control-plane"] ∧
      (¬ ∃ line ∈ nodeManifestLines node, lineHasKey "      " "image" line) ∧
      (¬ ∃ line ∈ nodeManifestLines node, lineHasKey "      " "extraPortMappings" line) ∧
      (¬ ∃ line ∈ nodeManifestLines node, lineHasKey "      " "extraMounts" line) ∧
      (¬ ∃ line ∈ nodeManifestLines node, lineHasKey "      " "kubeadmConfigPatches" line) ∧
      ¬ ∃ line ∈ stringsSplit text '\n', lineHasKey "" "containerdConfigPatches" line := by
  have hn : buildNodes cfgMinimal = .ok [{ Role := "control-plane" }] := by
    rw [buildNodes_eq, if_pos (by decide)]
    rfl
  obtain ⟨text, lines, hrun, hsplit, htop, _, hnode⟩ :=
    (buildKindYAML_omits_empty_fields cfgMinimal (by decide)).2 _ hn
  obtain ⟨himage, hports, hmounts, hpatches⟩ := hnode 0 _ rfl
  have htext : unlines (manifestLines (ClusterConfig.mk "Cluster" "" ""
      [{ Role := "control-plane" }] [])) =
      "kind: Cluster\napiVersion: \"\"\nnodes:\n    - role: control-plane\n" := by
    decide
  have hrun2 := buildKindYAML_yamlMarshal cfgMinimal (by decide) _ hn
  rw [hrun] at hrun2
  have heq : text = _ := congrArg Prod.fst (Except.ok.inj hrun2)
  refine ⟨text, _, hrun, hn, heq.trans htext, by decide, ?_, ?_, ?_, ?_, ?_⟩
  · exact fun h => himage.mp h rfl
  · exact fun h => hports.mp h rfl
  · exact fun h => hmounts.mp h rfl
  · exact fun h => hpatches.mp h rfl
  · rw [hsplit]
    rintro ⟨line, hline, hkey⟩
    rcases List.mem_append.mp hline with hl | hl
    · exact absurd (htop.mp ⟨line, hl, hkey⟩) (by decide)
    · rw [List.mem_singleton.mp hl] at hkey
      revert hkey
      decide

end KindHelper
